import Mathlib

/-!
A shallow embedding of the `gitconfig` Go library (config.go, parser.go,
error.go) and proofs about it.

Modelling conventions:
* Go maps become association lists keyed by the same normalized names the Go
  code uses as map keys; list order stands in for Go's (unspecified) map
  iteration order wherever the code iterates a map.
* Go `*string` becomes `Option String`; Go multi-returns become tuples, with
  a `Option String` in the error slot when the Go function returns
  `(..., error)`.
* Character classification (`unicode.IsSpace`, `unicode.IsLetter`,
  `unicode.IsDigit`) and case mapping (`strings.ToLower`) are modelled
  exactly on the ASCII range (plus the Latin-1 white-space characters Go
  recognises); the full Unicode tables are not reproduced.  Every concrete
  input used in the theorems below is ASCII.
* Byte positions and rune positions coincide on ASCII input, so the
  parser's `charPos` counts characters.
-/

namespace Gitconfig

/-- Go `unicode.IsSpace` restricted to Latin-1: `\t \n \v \f \r ' '` plus
U+0085 (NEL) and U+00A0 (NBSP). -/
def goIsSpace (c : Char) : Bool :=
  c = ' ' ∨ c = '\t' ∨ c = '\n' ∨ c = (Char.ofNat 11) ∨ c = (Char.ofNat 12) ∨
  c = '\r' ∨ c = (Char.ofNat 133) ∨ c = (Char.ofNat 160)

/-- Go `unicode.IsLetter` restricted to ASCII letters (the only letters that
occur in the inputs considered here). -/
def goIsLetter (c : Char) : Bool :=
  ('A' ≤ c ∧ c ≤ 'Z') ∨ ('a' ≤ c ∧ c ≤ 'z')

/-- Go `unicode.IsDigit` restricted to ASCII digits. -/
def goIsDigit (c : Char) : Bool :=
  '0' ≤ c ∧ c ≤ '9'

/-- Go `strings.ToLower` on one character, ASCII case mapping. -/
def goToLowerChar (c : Char) : Char :=
  if 'A' ≤ c ∧ c ≤ 'Z' then Char.ofNat (c.toNat + 32) else c

/-- Go `strings.ToLower`, ASCII case mapping. -/
def goToLower (s : String) : String :=
  ⟨s.data.map goToLowerChar⟩

/-- Go `strings.Split(s, ".")`: `List.splitOn` on the character list. -/
def goSplitDots (s : String) : List String :=
  (s.data.splitOn '.').map (fun l => ⟨l⟩)

/-- Go `strings.Join(parts, ".")` / `String.intercalate "."`. -/
def goJoinDots (parts : List String) : String :=
  ⟨['.'].intercalate (parts.map (·.data))⟩

/-- Go `strings.ContainsAny(s, chars)`. -/
def goContainsAny (s chars : String) : Bool :=
  s.data.any (fun c => chars.data.contains c)

/-! ## strconv -/

/-- Digits-only parse used by `strconv.ParseInt`/`ParseUint` in base 10:
all characters must be ASCII digits and there must be at least one. -/
def parseDecDigits : List Char → Option Nat
  | [] => none
  | cs => cs.foldl (fun acc c =>
      match acc with
      | none => none
      | some n => if goIsDigit c then some (n * 10 + (c.toNat - '0'.toNat)) else none)
      (some 0)

/-- Go `strconv.ParseInt(s, 10, bits)`.  Returns the parsed value together
with `true` on success; on a syntax error returns `(0, false)`; on a range
error returns the clamped value together with `false` (Go returns
`MaxInt_bits`/`MinInt_bits` alongside `ErrRange`). -/
def goParseInt (s : String) (bits : Nat) : Int × Bool :=
  let core : Option Int :=
    match s.data with
    | [] => none
    | '+' :: rest => (parseDecDigits rest).map (fun n => (n : Int))
    | '-' :: rest => (parseDecDigits rest).map (fun n => -(n : Int))
    | cs => (parseDecDigits cs).map (fun n => (n : Int))
  match core with
  | none => (0, false)
  | some v =>
    let hi : Int := 2 ^ (bits - 1) - 1
    let lo : Int := -(2 ^ (bits - 1))
    if v > hi then (hi, false)
    else if v < lo then (lo, false)
    else (v, true)

/-- The message of the `*strconv.NumError` that `ParseInt` returns, as
rendered by `err.Error()`. -/
def goParseIntErrMsg (s : String) (_bits : Nat) : String :=
  let core : Option Int :=
    match s.data with
    | [] => none
    | '+' :: rest => (parseDecDigits rest).map (fun n => (n : Int))
    | '-' :: rest => (parseDecDigits rest).map (fun n => -(n : Int))
    | cs => (parseDecDigits cs).map (fun n => (n : Int))
  match core with
  | none => "strconv.ParseInt: parsing \"" ++ s ++ "\": invalid syntax"
  | some _ => "strconv.ParseInt: parsing \"" ++ s ++ "\": value out of range"

/-- Go `strconv.ParseUint(s, 10, 64)`: like `ParseInt` but no sign allowed;
returns the value and a success flag (range errors clamp to `MaxUint64`). -/
def goParseUint (s : String) : Nat × Bool :=
  match parseDecDigits s.data with
  | none => (0, false)
  | some n => if n > 2 ^ 64 - 1 then (2 ^ 64 - 1, false) else (n, true)

def goParseUintErrMsg (s : String) : String :=
  match parseDecDigits s.data with
  | none => "strconv.ParseUint: parsing \"" ++ s ++ "\": invalid syntax"
  | some _ => "strconv.ParseUint: parsing \"" ++ s ++ "\": value out of range"

/-- Go `strconv.ParseBool`: accepts exactly
`1 t T TRUE true True` (true) and `0 f F FALSE false False` (false). -/
def goParseBool (s : String) : Option Bool :=
  if s = "1" ∨ s = "t" ∨ s = "T" ∨ s = "TRUE" ∨ s = "true" ∨ s = "True" then some true
  else if s = "0" ∨ s = "f" ∨ s = "F" ∨ s = "FALSE" ∨ s = "false" ∨ s = "False" then some false
  else none

/-! ## Data model (config.go lines 18-42) -/

structure ConfigValue where
  Name : String
  OrigCaseName : String
  Value : List (Option String)
  deriving DecidableEq, Repr

/-- Go `ConfigValueSet` is `map[string]*ConfigValue`; modelled as an
association list whose key is the `Name` field (the Go code always inserts
under the lowercased key it also stores in `Name`). -/
abbrev ConfigValueSet := List ConfigValue

structure ConfigSubSection where
  Name : String
  Values : ConfigValueSet
  deriving DecidableEq, Repr

structure ConfigSection where
  Name : String
  OrigCaseName : String
  SubSections : List ConfigSubSection
  Values : ConfigValueSet
  deriving DecidableEq, Repr

structure Config where
  Sections : List ConfigSection
  BaseValues : ConfigValueSet
  deriving DecidableEq, Repr

def NewConfig : Config := { Sections := [], BaseValues := [] }

/-! ## Value getters (config.go lines 652-802) -/

def ConfigValue.CountValues (cv : ConfigValue) : Nat := cv.Value.length

def ConfigValue.HasValues (cv : ConfigValue) : Bool := cv.Value.length ≠ 0

/-- config.go 709-722: nil entries are skipped, leaving the zero string. -/
def ConfigValue.ValuesAsStrings (cv : ConfigValue) : List String :=
  cv.Value.map (fun v => v.getD "")

/-- config.go 743-760. -/
def ConfigValue.ValuesAsInts (cv : ConfigValue) : Except String (List Int) :=
  let rec go : List (Option String) → Except String (List Int)
    | [] => .ok []
    | none :: _ => .error "Cannot convert empty value to int\n"
    | some v :: rest =>
      let (val, okFlag) := goParseInt v 64
      if okFlag then
        match go rest with
        | .ok out => .ok (val :: out)
        | .error e => .error e
      else .error (goParseIntErrMsg v 64)
  go cv.Value

/-- config.go 724-741. -/
def ConfigValue.ValuesAsUints (cv : ConfigValue) : Except String (List Nat) :=
  let rec go : List (Option String) → Except String (List Nat)
    | [] => .ok []
    | none :: _ => .error "Cannot convert empty value to int\n"
    | some v :: rest =>
      let (val, okFlag) := goParseUint v
      if okFlag then
        match go rest with
        | .ok out => .ok (val :: out)
        | .error e => .error e
      else .error (goParseUintErrMsg v)
  go cv.Value

/-- config.go 765-802, translated exactly as written: the integer branch is
taken when `strconv.ParseInt(*v, 10, 32)` FAILS (then `val` is 0 on a syntax
error or the clamped bound on a range error), and the `true/yes/false/no`
switch is only reached when the value IS a valid 32-bit integer literal. -/
def ConfigValue.ValuesAsBools (cv : ConfigValue) : Except String (List Bool) :=
  let rec go : List (Option String) → Except String (List Bool)
    | [] => .ok []
    | none :: rest =>
      match go rest with
      | .ok out => .ok (false :: out)
      | .error e => .error e
    | some v :: rest =>
      if v.length = 0 then
        match go rest with
        | .ok out => .ok (false :: out)
        | .error e => .error e
      else
        let (val, okFlag) := goParseInt v 32
        if ¬ okFlag then
          match go rest with
          | .ok out => .ok ((val ≠ 0) :: out)
          | .error e => .error e
        else
          let lc := goToLower v
          if lc = "true" ∨ lc = "yes" then
            match go rest with
            | .ok out => .ok (true :: out)
            | .error e => .error e
          else if lc = "false" ∨ lc = "no" then
            match go rest with
            | .ok out => .ok (false :: out)
            | .error e => .error e
          else
            .error ("Cannot convert '" ++ v ++
              "' to bool. Can deal with <empty>/<numeric>/true/yes/false/no\n")
  go cv.Value

/-- config.go 664-671. -/
def ConfigValue.GetString (cv : ConfigValue) : String × Bool :=
  let out := cv.ValuesAsStrings
  match out.getLast? with
  | none => ("", false)
  | some v => (v, true)

/-- config.go 673-683; third component is the Go error (`none` = nil). -/
def ConfigValue.GetInt (cv : ConfigValue) : Int × Bool × Option String :=
  match cv.ValuesAsInts with
  | .error e => (0, false, some e)
  | .ok out =>
    match out.getLast? with
    | none => (0, false, none)
    | some v => (v, true, none)

/-- config.go 685-695. -/
def ConfigValue.GetUint (cv : ConfigValue) : Nat × Bool × Option String :=
  match cv.ValuesAsUints with
  | .error e => (0, false, some e)
  | .ok out =>
    match out.getLast? with
    | none => (0, false, none)
    | some v => (v, true, none)

/-- config.go 697-707. -/
def ConfigValue.GetBool (cv : ConfigValue) : Bool × Bool × Option String :=
  match cv.ValuesAsBools with
  | .error e => (false, false, some e)
  | .ok out =>
    match out.getLast? with
    | none => (false, false, none)
    | some v => (v, true, none)

/-! ## Store lookup and mutation (config.go lines 420-516, 637-650) -/

/-- config.go 637-650 lookup half: find the entry stored under the
lowercased key. -/
def ConfigValueSet.find (s : ConfigValueSet) (key : String) : Option ConfigValue :=
  List.find? (fun cv => cv.Name = goToLower key) s

/-- config.go 637-650: `GetConfigValues` with `createEmpty = true` both
returns the entry and (when absent) inserts a fresh
`{Name := lcKey, OrigCaseName := key, Value := []}`.  The Go function
mutates the map; here the updated set is returned alongside. -/
def ConfigValueSet.getCreate (s : ConfigValueSet) (key : String) : ConfigValueSet :=
  let lcKey := goToLower key
  match s.find key with
  | some _ => s
  | none => s ++ [{ Name := lcKey, OrigCaseName := key, Value := [] }]

/-- The in-place update half of appending to the entry for the normalized
key `lcKey`: the first entry named `lcKey` gets `v` appended to its value
sequence; when none exists a fresh
`{Name := lcKey, OrigCaseName := key, Value := [v]}` is inserted. -/
def setUpdate (lcKey key : String) (v : Option String) : List ConfigValue → List ConfigValue
  | [] => [{ Name := lcKey, OrigCaseName := key, Value := [v] }]
  | cv :: rest =>
    if cv.Name = lcKey then { cv with Value := cv.Value ++ [v] } :: rest
    else cv :: setUpdate lcKey key v rest

/-- Append one value to the entry for `key`, creating it first when absent:
the composite effect of `Config.AddKeyValue`'s
`GetConfigValues(..., true)` followed by `cvs.Value = append(cvs.Value, value)`. -/
def ConfigValueSet.addValue (s : ConfigValueSet) (key : String) (v : Option String) : ConfigValueSet :=
  setUpdate (goToLower key) key v s

/-- config.go 421-435 lookup half (`createEmpty = false`). -/
def Config.findSection (c : Config) (sectionName : String) : Option ConfigSection :=
  List.find? (fun s => s.Name = goToLower sectionName) c.Sections

/-- config.go 438-453 lookup half (`createEmpty = false`); subsection names
are matched case-sensitively. -/
def Config.findSubSection (c : Config) (sectionName subSection : String) : Option ConfigSubSection :=
  match c.findSection sectionName with
  | none => none
  | some s => List.find? (fun ss => ss.Name = subSection) s.SubSections

/-- config.go 456-472 (`createEmpty = false`): value set for the scope. -/
def Config.findValueSet (c : Config) (sectionName subSection : String) : Option ConfigValueSet :=
  if sectionName = "" then some c.BaseValues
  else if subSection = "" then (c.findSection sectionName).map (·.Values)
  else (c.findSubSection sectionName subSection).map (·.Values)

/-- The list-update half of `Config.updateSection`. -/
def sectionsUpdate (slc sectionName : String) (f : ConfigSection → ConfigSection) :
    List ConfigSection → List ConfigSection
  | [] => [f { Name := slc, OrigCaseName := sectionName, SubSections := [], Values := [] }]
  | s :: rest =>
    if s.Name = slc then f s :: rest else s :: sectionsUpdate slc sectionName f rest

/-- Helper for `Config.AddKeyValue`: apply `f` to the section for `section`,
creating it first when absent (config.go 421-435 with `createEmpty = true`). -/
def Config.updateSection (c : Config) (sectionName : String) (f : ConfigSection → ConfigSection) : Config :=
  { c with Sections := sectionsUpdate (goToLower sectionName) sectionName f c.Sections }

/-- The list-update half of `ConfigSection.updateSubSection`. -/
def subSectionsUpdate (subSection : String) (f : ConfigSubSection → ConfigSubSection) :
    List ConfigSubSection → List ConfigSubSection
  | [] => [f { Name := subSection, Values := [] }]
  | ss :: rest =>
    if ss.Name = subSection then f ss :: rest else ss :: subSectionsUpdate subSection f rest

/-- Helper: apply `f` to the subsection, creating it when absent
(config.go 438-453 with `createEmpty = true`). -/
def ConfigSection.updateSubSection (s : ConfigSection) (subSection : String) (f : ConfigSubSection → ConfigSubSection) : ConfigSection :=
  { s with SubSections := subSectionsUpdate subSection f s.SubSections }

/-- config.go 504-507: `AddKeyValue` resolves the value set (creating the
scope as needed) and appends `value` to the entry for `key`. -/
def Config.AddKeyValue (c : Config) (sectionName subSection key : String) (v : Option String) : Config :=
  if sectionName = "" then
    { c with BaseValues := c.BaseValues.addValue key v }
  else if subSection = "" then
    c.updateSection sectionName (fun s => { s with Values := s.Values.addValue key v })
  else
    c.updateSection sectionName (fun s =>
      s.updateSubSection subSection (fun ss => { ss with Values := ss.Values.addValue key v }))

/-- config.go 480-493. -/
def ParseSectionKey (full_key : String) : String × String × String :=
  let out := goSplitDots full_key
  match out with
  | [] => ("", "", "")
  | [k] => ("", "", goToLower k)
  | [s, k] => (goToLower s, "", goToLower k)
  | [s, ss, k] => (goToLower s, ss, goToLower k)
  | s :: rest => (goToLower s, goJoinDots (rest.dropLast), goToLower (rest.getLast!))

/-- config.go 510-516. -/
def Config.GetKeyValuesRaw (c : Config) (key : String) : Option ConfigValue :=
  let (s, ss, k) := ParseSectionKey key
  if k = "" then none
  else match c.findValueSet s ss with
    | none => none
    | some vs => vs.find k

/-- config.go 611-613. -/
def ConfigSubSection.GetKeyValuesRaw (ss : ConfigSubSection) (key : String) : Option ConfigValue :=
  ss.Values.find key

/-- config.go 520-526. -/
def Config.GetKeyValuesStrings (c : Config) (key : String) : Option (List String) :=
  (c.GetKeyValuesRaw key).map (·.ValuesAsStrings)

/-- config.go 553-559. -/
def Config.GetKeyValueAsString (c : Config) (key : String) : String × Bool :=
  match c.GetKeyValuesRaw key with
  | none => ("", false)
  | some cv => cv.GetString

/-- config.go 564-570. -/
def Config.GetKeyValueAsInt (c : Config) (key : String) : Int × Bool × Option String :=
  match c.GetKeyValuesRaw key with
  | none => (0, false, none)
  | some cv => cv.GetInt

/-- config.go 575-581. -/
def Config.GetKeyValueAsBool (c : Config) (key : String) : Bool × Bool × Option String :=
  match c.GetKeyValuesRaw key with
  | none => (false, false, none)
  | some cv => cv.GetBool

/-! ## Serializer (config.go lines 87-93, 583-609, 615-635) -/

/-- config.go 629-635: note that tab and newline are "escaped" by inserting
a backslash IN FRONT of the literal tab/newline character (`"\\\t"` in Go
source is backslash followed by an actual tab). -/
def EscapeValueString (s : String) : String :=
  ⟨s.data.flatMap (fun c =>
    if c = '\\' then ['\\', '\\']
    else if c = '"' then ['\\', '"']
    else if c = '\t' then ['\\', '\t']
    else if c = '\n' then ['\\', '\n']
    else [c])⟩

/-- config.go 591-605: render one stored value occurrence. -/
def renderValueLine (key : String) (v : Option String) : String :=
  match v with
  | none => "\t" ++ key ++ "\n"
  | some s =>
    let escaped := EscapeValueString s
    let escaped :=
      if escaped.length > 1 then
        match escaped.data.getLast? with
        | some last =>
          if goIsSpace last ∨ goContainsAny escaped "#;!$`" then "\"" ++ escaped ++ "\""
          else escaped
        | none => escaped
      else escaped
    "\t" ++ key ++ " = " ++ escaped ++ "\n"

/-- config.go 583-609. -/
def ConfigValueSet.render (vs : ConfigValueSet) : String :=
  vs.foldl (fun out cv =>
    if cv.Value.length = 0 then out
    else out ++ String.join (cv.Value.map (renderValueLine cv.OrigCaseName))) ""

/-- config.go 615-627. -/
def ConfigSection.render (s : ConfigSection) : String :=
  let out := s.Values.render
  let out := if out ≠ "" then "[" ++ s.OrigCaseName ++ "]\n" ++ out else out
  s.SubSections.foldl (fun out ss =>
    let ssOut := ss.Values.render
    if ssOut ≠ "" then
      out ++ "[" ++ s.OrigCaseName ++ " \"" ++ EscapeValueString ss.Name ++ "\"]\n" ++ ssOut
    else out) out

/-- config.go 87-93 (`Config.String`). -/
def Config.render (c : Config) : String :=
  c.Sections.foldl (fun out s => out ++ s.render) c.BaseValues.render

/-! ## Parser (parser source file, lines 12-300, and error source, lines 312-326) -/

structure ParseError where
  Message : String
  Line : String
  LineNo : Nat
  CharPos : Nat
  deriving DecidableEq, Repr

/-- The mutable fields of the Go `Parser` that the reading functions share
(`Reader` is replaced by the explicit `lines` argument threaded through). -/
structure PState where
  config : Config
  sectionName : String
  subSection : String
  lineNo : Nat
  charPos : Nat
  curLine : String
  deriving DecidableEq, Repr

def mkError (st : PState) (reason : String) : ParseError :=
  { Message := reason, Line := st.curLine, LineNo := st.lineNo, CharPos := st.charPos }

/-- `Parser.GetCurLine`: the current line from `charPos` on. -/
def PState.getCur (st : PState) : List Char :=
  st.curLine.data.drop st.charPos

/-- The effect of a successful `Parser.ReadLine`. -/
def advanceLine (st : PState) (l : String) : PState :=
  { st with lineNo := st.lineNo + 1, charPos := 0, curLine := l }

/-- `self.charPos++`. -/
def bump (st : PState) : PState := { st with charPos := st.charPos + 1 }

/-- `self.charPos--`. -/
def back (st : PState) : PState := { st with charPos := st.charPos - 1 }

/-- Outcome of `readValue`'s character loop on a single line. -/
inductive VLineOut
  | err (e : ParseError)
  | ret (v : String) (st : PState)
  | contEsc (v : String) (st : PState) (hadNWS : Bool) (spaceRun : String)
  deriving DecidableEq, Repr

/-- The parser state carried by a non-error `VLineOut`. -/
def VLineOut.stOf : VLineOut → Option PState
  | .err _ => none
  | .ret _ st => some st
  | .contEsc _ st _ _ => some st

/-- The character loop of `readValue` (parser lines 224-277), with the
end-of-line dispatch of lines 278-290 folded into the `[]` case: still
quoted is an error, a pending escape requests line continuation, otherwise
the value is complete. -/
def readValueLine (st : PState) (inEscape : Bool) (value : String) (quoted : Bool)
    (hadNWS : Bool) (spaceRun : String) : List Char → VLineOut
  | [] =>
    if quoted then
      .err (mkError st ("Unexpected newline in quoted value string: '" ++ value ++ "'.\n"))
    else if inEscape then .contEsc value st hadNWS spaceRun
    else .ret value st
  | r :: rest =>
    let st := bump st
    if goIsSpace r then
      readValueLine st inEscape value quoted hadNWS
        (if hadNWS then spaceRun.push r else spaceRun) rest
    else if r = '\\' ∧ ¬ inEscape then
      readValueLine st true value quoted hadNWS spaceRun rest
    else if ¬ quoted ∧ (r = ';' ∨ r = '#') then
      .ret value st
    else
      let value := if spaceRun ≠ "" then value ++ spaceRun else value
      if r = ';' ∨ r = '#' then
        readValueLine st inEscape (value.push r) quoted true "" rest
      else if inEscape then
        if r = '"' then readValueLine st false (value.push '"') quoted true "" rest
        else if r = 't' then readValueLine st false (value.push '\t') quoted true "" rest
        else if r = 'n' then readValueLine st false (value.push '\n') quoted true "" rest
        else if r = '\\' then readValueLine st false (value.push '\\') quoted true "" rest
        else .err (mkError st ("Unexpected '" ++ String.singleton r ++
          "' in escape only double-quote, n, t and \\ are allowed to be escaped.\n"))
      else if r = '"' then
        readValueLine st inEscape value (¬ quoted) true "" rest
      else readValueLine st inEscape (value.push r) quoted true "" rest

/-- `readValue` (parser lines 219-291): processes the current line; a
trailing unescaped backslash consumes the next physical line recursively and
concatenates its value.  Returns the value, the final parser state and the
lines not consumed. -/
def readValueF (st : PState) (hadNWS : Bool) (spaceRun : String) :
    List String → Except ParseError (String × PState × List String)
  | [] =>
    match readValueLine st false "" false hadNWS spaceRun st.getCur with
    | .err e => .error e
    | .ret v st' => .ok (v, st', [])
    | .contEsc v st' _ _ => .ok (v, st', [])
  | l :: ls =>
    match readValueLine st false "" false hadNWS spaceRun st.getCur with
    | .err e => .error e
    | .ret v st' => .ok (v, st', l :: ls)
    | .contEsc v st' h s =>
      match readValueF (advanceLine st' l) h s ls with
      | .ok (next, st2, ls2) => .ok (v ++ next, st2, ls2)
      | .error e => .error e

/-- The character loop of `readKeyValue` (parser lines 183-212) together
with the end-of-line boolean-key handling of lines 213-216. -/
def readKeyValueLoop (st : PState) (lines : List String) (hadNWS doneKey : Bool)
    (key : String) : List Char → Except ParseError (PState × List String)
  | [] =>
    if key ≠ "" then
      .ok ({ st with config := st.config.AddKeyValue st.sectionName st.subSection key none }, lines)
    else .ok (st, lines)
  | r :: rest =>
    let st := bump st
    if goIsSpace r then
      readKeyValueLoop st lines hadNWS (if hadNWS then true else doneKey) key rest
    else if r = '=' then
      match readValueF st false "" lines with
      | .error e => .error e
      | .ok (value, st', lines') =>
        .ok ({ st' with
               config := st'.config.AddKeyValue st'.sectionName st'.subSection key (some value) },
             lines')
    else if doneKey then
      .error (mkError st ("Unexpected '" ++ String.singleton r ++ "' after key '" ++ key ++
        "', expected =, whitespace or newline\n"))
    else if ¬ goIsLetter r ∧ ¬ hadNWS then
      .error (mkError st ("Unexpected '" ++ String.singleton r ++
        "' starting key, expected a letter\n"))
    else if ¬ goIsLetter r ∧ r ≠ '-' ∧ ¬ goIsDigit r then
      .error (mkError st ("Unexpected '" ++ String.singleton r ++
        "' in key, expected a ascii letter, hyphen or digit\n"))
    else
      readKeyValueLoop st lines true doneKey (key.push r) rest

def readKeyValue (st : PState) (lines : List String) : Except ParseError (PState × List String) :=
  readKeyValueLoop st lines false false "" st.getCur

/-- The character loop of `readSubsection` (parser lines 140-174) with the
end-of-line failure of line 175. -/
def readSubsectionLoop (st : PState) (lines : List String) (inSubSection inEscape : Bool) :
    List Char → Except ParseError (PState × List String)
  | [] => .error (mkError st "Unexpected end of line when reading subsection")
  | r :: rest =>
    let st := bump st
    if inEscape then
      let st :=
        if r = '"' then { st with subSection := st.subSection.push '"' }
        else if r = 't' then { st with subSection := st.subSection.push '\t' }
        else if r = 'n' then { st with subSection := st.subSection.push '\n' }
        else if r = '\\' then { st with subSection := st.subSection.push '\\' }
        else st
      readSubsectionLoop st lines inSubSection false rest
    else if goIsSpace r then
      readSubsectionLoop
        (if inSubSection then { st with subSection := st.subSection.push r } else st)
        lines inSubSection false rest
    else if r = '"' then
      if inSubSection then .ok (st, lines)
      else readSubsectionLoop st lines true false rest
    else if r = '\\' then
      readSubsectionLoop st lines inSubSection true rest
    else
      readSubsectionLoop { st with subSection := st.subSection.push r } lines inSubSection false rest

def readSubsection (st : PState) (lines : List String) : Except ParseError (PState × List String) :=
  let st := { st with subSection := "" }
  readSubsectionLoop st lines false false st.getCur

/-- The character loop of `readSection` (parser lines 94-130) with the
end-of-line failure of line 131. -/
def readSectionLoop (st : PState) (lines : List String) (inSection : Bool) :
    List Char → Except ParseError (PState × List String)
  | [] => .error (mkError st "Unexpected end of line when reading section")
  | r :: rest =>
    let st := bump st
    if goIsSpace r then readSectionLoop st lines inSection rest
    else if r = ';' ∨ r = '#' then
      if inSection then
        .error (mkError st ("Unexpected " ++ String.singleton r ++ " in section name '" ++
          st.sectionName))
      else .ok (st, lines)
    else if r = '[' then
      if st.sectionName ≠ "" ∨ inSection then
        .error (mkError st ("Unexpected [ in section name '" ++ st.sectionName ++ "'"))
      else readSectionLoop st lines true rest
    else if r = ']' then
      if ¬ inSection then
        .error (mkError st ("Unexpected ] in section name '" ++ st.sectionName ++ "'"))
      else readKeyValue st lines
    else if r = '"' then
      if st.subSection = "" then
        if st.sectionName = "" then
          .error (mkError st "Unexpected \" before section name")
        else readSubsection (back st) lines
      else
        .error (mkError st ("Unexpected \" in section name '" ++ st.sectionName ++ "'"))
    else
      readSectionLoop { st with sectionName := st.sectionName.push r } lines inSection rest

def readSection (st : PState) (lines : List String) : Except ParseError (PState × List String) :=
  let st := { st with sectionName := "", subSection := "" }
  readSectionLoop st lines false st.getCur

/-- `readKeyOrSection` (parser lines 55-87); the loop-local `out`,
`inQuote`, `inEscape`, `hadNonWhiteSpace` variables are carried although the
code can never set them (every branch that would returns first). -/
def readKeyOrSectionLoop (st : PState) (lines : List String)
    (hadNWS inQuote inEscape : Bool) (out : String) :
    List Char → Except ParseError (PState × List String)
  | [] => .ok (st, lines)
  | r :: rest =>
    let st := bump st
    if goIsSpace r then
      if ¬ hadNWS then readKeyOrSectionLoop st lines hadNWS inQuote inEscape out rest
      else if inEscape then
        .error (mkError st ("Unrecognised escape character: '" ++ String.singleton r ++ "'"))
      else if inQuote then
        readKeyOrSectionLoop st lines hadNWS inQuote inEscape (out.push r) rest
      else readKeyOrSectionLoop st lines hadNWS inQuote inEscape out rest
    else if r = ';' ∨ r = '#' then .ok (st, lines)
    else
      let st := back st
      if r = '[' then readSection st lines else readKeyValue st lines

def readKeyOrSection (st : PState) (lines : List String) :
    Except ParseError (PState × List String) :=
  readKeyOrSectionLoop st lines false false false "" st.getCur

/-- `Parser.Read` (parser lines 43-53), with fuel standing in for the
termination argument: each iteration consumes at least the first pending
line, so `fuel = lines.length` always suffices (see `pReadFuel_fuel_irrel`
below the definitions). -/
def pReadFuel : Nat → PState → List String → Except ParseError Config
  | 0, st, _ => .ok st.config
  | _ + 1, st, [] => .ok st.config
  | fuel + 1, st, l :: ls =>
    let st := advanceLine st l
    if st.curLine = "" then pReadFuel fuel st ls
    else
      match readKeyOrSection st ls with
      | .error e => .error e
      | .ok (st', ls') => pReadFuel fuel st' ls'

/-- `bufio.Scanner` with the default `ScanLines` split: newline-separated
tokens, no empty final token after a trailing newline, carriage returns
before the newline stripped. -/
def goScanLines (s : String) : List String :=
  let dropCR : List Char → List Char := fun l =>
    if l.getLast? = some '\r' then l.dropLast else l
  let parts : List String := (s.data.splitOn '\n').map (fun l => ⟨dropCR l⟩)
  if s.data = [] then []
  else if s.data.getLast? = some '\n' then parts.dropLast
  else parts

/-- The zero-valued `Parser` that `NewConfigFromString` builds around a
fresh `Config`. -/
def initialPState : PState :=
  { config := NewConfig, sectionName := "", subSection := "", lineNo := 0,
    charPos := 0, curLine := "" }

/-- config.go 54-65: `NewConfigFromString`. -/
def NewConfigFromString (data : String) : Except ParseError Config :=
  let lines := goScanLines data
  pReadFuel lines.length initialPState lines

/-! ## Generic binder (config.go lines 95-418)

The reflection-driven binder is embedded over an explicit universe of
target shapes: the scalar kinds `string`, `int`, `uint`, `bool`, and
fixed-size arrays of strings (the shapes the claims under verification
exercise).  Each Go `case` of `loadSetValue` becomes one function, keeping
the source's branch structure and messages. -/

inductive FieldVal
  | vStr (s : String)
  | vInt (i : Int)
  | vUint (n : Nat)
  | vBool (b : Bool)
  | vStrArray (xs : List String)
  deriving DecidableEq, Repr

/-- `reflect.Type.String()` for the modelled shapes. -/
def FieldVal.typeName : FieldVal → String
  | .vStr _ => "string"
  | .vInt _ => "int"
  | .vUint _ => "uint"
  | .vBool _ => "bool"
  | .vStrArray xs => "[" ++ toString xs.length ++ "]string"

/-- `confVal == nil || !confVal.HasValues()`. -/
def missingVal (confVal : Option ConfigValue) : Bool :=
  match confVal with
  | none => true
  | some cv => ¬ cv.HasValues

/-- config.go 134-149 (`case reflect.String`): `cur` is the field's
pre-existing content. -/
def loadSetStr (cur key defVal : String) (confVal : Option ConfigValue)
    (required haveDefault : Bool) : Except String String :=
  if missingVal confVal then
    if required then .error ("Could not populate required string no value for " ++ key)
    else if ¬ haveDefault then .ok cur
    else .ok defVal
  else
    match confVal with
    | some cv => .ok cv.GetString.1
    | none => .ok cur

/-- config.go 174-195 (`case reflect.Int*`). -/
def loadSetInt (cur : Int) (key defVal : String) (confVal : Option ConfigValue)
    (required haveDefault : Bool) : Except String Int :=
  if missingVal confVal then
    if required then .error ("Could not populate required int no value for " ++ key)
    else if ¬ haveDefault then .ok cur
    else
      let (i, okFlag) := goParseInt defVal 64
      if okFlag then .ok i
      else .error ("Could not populate default int field, default value \"" ++ defVal ++
        "\" did not parse as an Int")
  else
    match confVal with
    | some cv =>
      match cv.GetInt with
      | (_, _, some e) => .error e
      | (i, _, none) => .ok i
    | none => .ok cur

/-- config.go 151-172 (`case reflect.Uint*`). -/
def loadSetUint (cur : Nat) (key defVal : String) (confVal : Option ConfigValue)
    (required haveDefault : Bool) : Except String Nat :=
  if missingVal confVal then
    if required then .error ("Could not populate required uint no value for " ++ key)
    else if ¬ haveDefault then .ok cur
    else
      let (n, okFlag) := goParseUint defVal
      if okFlag then .ok n
      else .error ("Could not populate default uint field, default value \"" ++ defVal ++
        "\" did not parse as an Int")
  else
    match confVal with
    | some cv =>
      match cv.GetUint with
      | (_, _, some e) => .error e
      | (n, _, none) => .ok n
    | none => .ok cur

/-- config.go 197-218 (`case reflect.Bool`): a missing value with a default
goes through `strconv.ParseBool`, a present value through
`ConfigValue.GetBool`. -/
def loadSetBool (cur : Bool) (key defVal : String) (confVal : Option ConfigValue)
    (required haveDefault : Bool) : Except String Bool :=
  if missingVal confVal then
    if required then .error ("Could not populate required bool no value for " ++ key)
    else if ¬ haveDefault then .ok cur
    else
      match goParseBool defVal with
      | some b => .ok b
      | none => .error ("Could not populate default bool field, default value \"" ++ defVal ++
        "\" did not parse as an Int")
  else
    match confVal with
    | some cv =>
      match cv.GetBool with
      | (_, _, some e) => .error e
      | (b, _, none) => .ok b
    | none => .ok cur

/-- The slot loop of the `reflect.Array` case (config.go 282-291) for string
elements: slot `i` receives a one-value `ConfigValue` when `i < setLen`, and
`nil` (the scalar default/required policy) otherwise.  On error the Go code
leaves the slots set so far and returns; callers only see the error. -/
def loadStrArraySlots (key defVal : String) (required haveDefault : Bool) :
    List String → List (Option String) → Except String (List String)
  | [], _ => .ok []
  | slot :: slots, vs =>
    let passConfVal : Option ConfigValue :=
      match vs with
      | v :: _ => some { Name := "", OrigCaseName := "", Value := [v] }
      | [] => none
    match loadSetStr slot key defVal passConfVal required haveDefault with
    | .error e => .error e
    | .ok s =>
      match loadStrArraySlots key defVal required haveDefault slots (vs.drop 1) with
      | .error e => .error e
      | .ok out => .ok (s :: out)

/-- Result of `loadSetValue`: `nilPanic` records that the Go code would
dereference a nil `*ConfigValue` (the `reflect.Array` case reads
`confVal.Value` without a nil check). -/
inductive BindOut
  | ok (v : FieldVal)
  | err (msg : String)
  | nilPanic
  deriving DecidableEq, Repr

/-- config.go 108-372 (`Config.loadSetValue`) on the modelled shapes. -/
def loadSetValue (retval : FieldVal) (key defVal : String) (confVal : Option ConfigValue)
    (required haveDefault : Bool) : BindOut :=
  match retval with
  | .vStr cur =>
    match loadSetStr cur key defVal confVal required haveDefault with
    | .ok s => .ok (.vStr s)
    | .error e => .err e
  | .vInt cur =>
    match loadSetInt cur key defVal confVal required haveDefault with
    | .ok i => .ok (.vInt i)
    | .error e => .err e
  | .vUint cur =>
    match loadSetUint cur key defVal confVal required haveDefault with
    | .ok n => .ok (.vUint n)
    | .error e => .err e
  | .vBool cur =>
    match loadSetBool cur key defVal confVal required haveDefault with
    | .ok b => .ok (.vBool b)
    | .error e => .err e
  | .vStrArray cur =>
    match confVal with
    | none => .nilPanic
    | some cv =>
      let aLen := cur.length
      let vals :=
        if aLen < cv.Value.length then cv.Value.drop (cv.Value.length - aLen)
        else cv.Value
      match loadStrArraySlots key defVal required haveDefault cur vals with
      | .ok out => .ok (.vStrArray out)
      | .error e => .err e

/-! ### `Config.loadStruct` (config.go 374-418) -/

/-- One struct field as the binder sees it through reflection:
its Go name, settability, the three `gitconfig` tags, and its pre-existing
content. -/
structure FieldDesc where
  Name : String
  CanSet : Bool
  gcKey : String
  gcRequired : String
  gcDefault : Option String
  init : FieldVal
  deriving DecidableEq, Repr

/-- `errs[key] = v` on the `LoadError` map: overwrite the entry for `k` if
present, insert otherwise. -/
def errsInsert : List (String × String) → String → String → List (String × String)
  | [], k, v => [(k, v)]
  | p :: rest, k, v => if p.1 = k then (k, v) :: rest else p :: errsInsert rest k v

/-- Membership of a key in the `LoadError` map. -/
def hasKey (es : List (String × String)) (k : String) : Bool :=
  es.any (fun p => p.1 = k)

inductive LoadOutcome
  | tagAbort (msg : String)
  | panicked
  | finished (vals : List FieldVal) (errs : List (String × String))
  deriving DecidableEq, Repr

/-- config.go 386-392: the field's full path (`gcKey` prefixed by the
namespace when one is set). -/
def fieldKey (ns : String) (fd : FieldDesc) : String :=
  if ns ≠ "" then ns ++ "." ++ fd.gcKey else fd.gcKey

/-- config.go 393-403: the parsed `gcRequired` flag (only meaningful when
the tag parses; a malformed tag is the `tagAbort` case below). -/
def fieldRequired (fd : FieldDesc) : Bool :=
  if fd.gcRequired ≠ "" then (goParseBool fd.gcRequired).getD false else false

/-- config.go 404-406: `gcDefault` is only looked up when not required. -/
def fieldDefault (fd : FieldDesc) : String × Bool :=
  if ¬ fieldRequired fd then
    match fd.gcDefault with
    | some d => (d, true)
    | none => ("", false)
  else ("", false)

/-- The field loop of `loadStruct`: `vals` accumulates each field's final
content (reversed), `errs` the `LoadError` map.  A `gcRequired` tag that does
not parse as a boolean aborts the whole walk (config.go 398-402). -/
def loadStructGo (c : Config) (ns : String) :
    List FieldDesc → List FieldVal → List (String × String) → LoadOutcome
  | [], vals, errs => .finished vals.reverse errs
  | fd :: rest, vals, errs =>
    if ¬ fd.CanSet then loadStructGo c ns rest (fd.init :: vals) errs
    else if fd.gcKey = "" then loadStructGo c ns rest (fd.init :: vals) errs
    else if fd.gcRequired ≠ "" ∧ (goParseBool fd.gcRequired).isNone then
      .tagAbort ("Could not parse required:\"" ++ fd.gcRequired ++ "\" as boolean in field \"" ++
        fd.Name ++ "\"\n")
    else
      match loadSetValue fd.init (fieldKey ns fd) (fieldDefault fd).1
          (c.GetKeyValuesRaw (fieldKey ns fd)) (fieldRequired fd) (fieldDefault fd).2 with
      | .ok v => loadStructGo c ns rest (v :: vals) errs
      | .err e =>
        loadStructGo c ns rest (fd.init :: vals)
          (errsInsert errs (fieldKey ns fd)
            ("Could not populate " ++ fd.init.typeName ++ " field \"" ++
              fd.Name ++ "\": " ++ e))
      | .nilPanic => .panicked

/-- The Go `error` returned by `loadStruct`/`Load`: either a plain
`fmt.Errorf` or the `LoadError` map. -/
inductive GoErr
  | plain (msg : String)
  | load (errs : List (String × String))
  deriving DecidableEq, Repr

/-- config.go 374-418: run the field loop, then return the `LoadError` map
iff it is non-empty (`panicked` stands for a Go runtime panic, not an error
return). -/
def loadStruct (c : Config) (ns : String) (fields : List FieldDesc) :
    Option (Except GoErr (List FieldVal)) :=
  match loadStructGo c ns fields [] [] with
  | .tagAbort msg => some (.error (.plain msg))
  | .panicked => none
  | .finished vals errs =>
    if errs = [] then some (.ok vals) else some (.error (.load errs))

/-! ### Per-field specification used to state C3

`bindField` describes what the walk does to a single field, in isolation
from every other field. -/

/-- Whether the field takes part in binding at all. -/
def fieldActive (fd : FieldDesc) : Bool := fd.CanSet ∧ fd.gcKey ≠ ""

def bindField (c : Config) (ns : String) (fd : FieldDesc) : FieldVal × Option (String × String) :=
  if ¬ fieldActive fd then (fd.init, none)
  else
    let key := fieldKey ns fd
    let (defVal, haveDefault) := fieldDefault fd
    match loadSetValue fd.init key defVal (c.GetKeyValuesRaw key) (fieldRequired fd) haveDefault with
    | .ok v => (v, none)
    | .err e =>
      (fd.init, some (key, "Could not populate " ++ fd.init.typeName ++ " field \"" ++
        fd.Name ++ "\": " ++ e))
    | .nilPanic => (fd.init, none)

/-- A field whose `gcRequired` tag is malformed (non-empty and not a Go
boolean literal). -/
def badTag (fd : FieldDesc) : Bool :=
  fieldActive fd ∧ fd.gcRequired ≠ "" ∧ (goParseBool fd.gcRequired).isNone

/-- A field on which `loadSetValue` would dereference a nil pointer. -/
def fieldPanics (c : Config) (ns : String) (fd : FieldDesc) : Bool :=
  fieldActive fd ∧
    loadSetValue fd.init (fieldKey ns fd) (fieldDefault fd).1
      (c.GetKeyValuesRaw (fieldKey ns fd)) (fieldRequired fd) (fieldDefault fd).2 = .nilPanic

/-- One step of error aggregation: record the field's failure (if any)
under its full path. -/
def bindStep (c : Config) (ns : String) (es : List (String × String)) (fd : FieldDesc) :
    List (String × String) :=
  match (bindField c ns fd).2 with
  | some p => errsInsert es p.1 p.2
  | none => es

/-- The `LoadError` map the walk accumulates, described per field. -/
def bindErrsList (c : Config) (ns : String) (fields : List FieldDesc) :
    List (String × String) :=
  fields.foldl (bindStep c ns) []

/-! ### Spec-side definitions used to state the claims -/

/-- The scalar target shapes of the binder's per-shape table. -/
def FieldVal.isScalar : FieldVal → Bool
  | .vStr _ => true
  | .vInt _ => true
  | .vUint _ => true
  | .vBool _ => true
  | .vStrArray _ => false

/-- The 1/2/3/more-than-3 component rule as the spec states it, written
over the component list directly (to be compared with `ParseSectionKey`,
which re-splits a joined string). -/
def specSectionKeyRule (parts : List String) : String × String × String :=
  match parts with
  | [] => ("", "", "")
  | [k] => ("", "", goToLower k)
  | [s, k] => (goToLower s, "", goToLower k)
  | [s, ss, k] => (goToLower s, ss, goToLower k)
  | s :: rest => (goToLower s, goJoinDots rest.dropLast, goToLower rest.getLast!)

/-- The value-set invariant of the claim: normalized (lowercased) keys are
unique within the set, and every entry is stored under the lowercase of its
display (original-case) name. -/
def ConfigValueSet.WF (s : ConfigValueSet) : Prop :=
  s.Pairwise (fun a b => a.Name ≠ b.Name) ∧ ∀ cv ∈ s, cv.Name = goToLower cv.OrigCaseName

instance (s : ConfigValueSet) : Decidable s.WF := by
  unfold ConfigValueSet.WF
  infer_instance

/-- Every value set of the store (base, per section, per subsection)
satisfies the invariant. -/
def Config.WF (c : Config) : Prop :=
  ConfigValueSet.WF c.BaseValues ∧
  ∀ sec ∈ c.Sections, ConfigValueSet.WF sec.Values ∧
    ∀ ss ∈ sec.SubSections, ConfigValueSet.WF ss.Values

instance (c : Config) : Decidable c.WF := by
  unfold Config.WF
  infer_instance

/-- The subsection-name escape mapping as the spec describes it: the four
recognized characters produce their expansions, every other escaped
character produces nothing. -/
def subsectionEscape (c : Char) : String :=
  if c = '"' then "\""
  else if c = 't' then "\t"
  else if c = 'n' then "\n"
  else if c = '\\' then "\\"
  else ""

end Gitconfig

deriving instance DecidableEq for Except

set_option maxRecDepth 100000

namespace Gitconfig

/-! ## Shared helper lemmas -/

/-- Mapping an all-`none` list through `Option.getD ""` yields empty
strings only. -/
theorem map_getD_of_all_none (l : List (Option String)) (h : ∀ v ∈ l, v = none) :
    l.map (fun v => v.getD "") = List.replicate l.length "" := by
  induction l with
  | nil => rfl
  | cons x xs ih =>
    have hx : x = none := h x (by simp)
    subst hx
    simp [List.replicate, ih (fun v hv => h v (by simp [hv]))]

/-! ## C2: boolean coercion (config.go 765-802) -/

/-- **C2, counterexample.**  The claim says boolean coercion maps the
integer literal `1` to `true` and the strings `true`/`yes`
(case-insensitively) to `true`.  The code does the opposite: valid 32-bit
integer literals fall through to the `true/yes/false/no` switch and error,
while non-integer strings — including `true` and `yes` — take the branch
meant for integers, where the value returned by the failed
`strconv.ParseInt` call (0, or a clamped bound on range overflow) decides
the result.  Empty and absent values do come out `false` as claimed. -/
theorem C2_bool_coercion_inverted :
    ConfigValue.ValuesAsBools ⟨"k", "k", [some "true"]⟩ = .ok [false] ∧
    ConfigValue.ValuesAsBools ⟨"k", "k", [some "yes"]⟩ = .ok [false] ∧
    ConfigValue.ValuesAsBools ⟨"k", "k", [some "TRUE"]⟩ = .ok [false] ∧
    ConfigValue.ValuesAsBools ⟨"k", "k", [some "1"]⟩ =
      .error "Cannot convert '1' to bool. Can deal with <empty>/<numeric>/true/yes/false/no\n" ∧
    ConfigValue.ValuesAsBools ⟨"k", "k", [some "0"]⟩ =
      .error "Cannot convert '0' to bool. Can deal with <empty>/<numeric>/true/yes/false/no\n" ∧
    ConfigValue.ValuesAsBools ⟨"k", "k", [some "banana"]⟩ = .ok [false] ∧
    ConfigValue.ValuesAsBools ⟨"k", "k", [some "99999999999"]⟩ = .ok [true] ∧
    ConfigValue.GetBool ⟨"k", "k", [some "true"]⟩ = (false, true, none) ∧
    ConfigValue.ValuesAsBools ⟨"k", "k", [none, some ""]⟩ = .ok [false, false] := by
  decide

/-! ## C10: boolean keys through the string and int getters -/

/-- **C10.**  A key stored as a boolean key holds only absent (`none`)
values.  Through the string getters it is indistinguishable from an
explicitly empty string — `ValuesAsStrings` yields `""` for every absent
value and `GetKeyValueAsString` reports `("", found = true)` — while
`GetKeyValueAsInt` reports the "Cannot convert empty value to int" error
instead of a value. -/
theorem C10_boolean_key_getters (c : Config) (key : String) (cv : ConfigValue)
    (hraw : c.GetKeyValuesRaw key = some cv)
    (hne : cv.Value ≠ [])
    (hnone : ∀ v ∈ cv.Value, v = none) :
    c.GetKeyValueAsString key = ("", true) ∧
    cv.ValuesAsStrings = List.replicate cv.Value.length "" ∧
    c.GetKeyValueAsInt key = (0, false, some "Cannot convert empty value to int\n") := by
  have hstrs : cv.ValuesAsStrings = List.replicate cv.Value.length "" := by
    simpa [ConfigValue.ValuesAsStrings] using map_getD_of_all_none cv.Value hnone
  have hlen : cv.Value.length ≠ 0 := by
    simpa [List.length_eq_zero] using hne
  refine ⟨?_, hstrs, ?_⟩
  · have hlast : cv.ValuesAsStrings.getLast? = some "" := by
      rw [hstrs]
      cases hn : cv.Value.length with
      | zero => exact absurd hn hlen
      | succ m => simp [List.getLast?_replicate]
    simp [Config.GetKeyValueAsString, hraw, ConfigValue.GetString, hlast]
  · obtain ⟨v, rest, hv⟩ : ∃ v rest, cv.Value = v :: rest := by
      cases h : cv.Value with
      | nil => exact absurd h hne
      | cons a l => exact ⟨a, l, rfl⟩
    have hv0 : v = none := hnone v (by simp [hv])
    simp [Config.GetKeyValueAsInt, hraw, ConfigValue.GetInt, ConfigValue.ValuesAsInts, hv,
      hv0, ConfigValue.ValuesAsInts.go]

/-- **C10, witness.**  The config parsed from the single bare line
`somekey` stores an absent value; the getters behave as C10 states. -/
theorem C10_boolean_key_getters_witness :
    (NewConfigFromString "somekey").toOption.map
        (fun c => (c.GetKeyValueAsString "somekey", c.GetKeyValueAsInt "somekey")) =
      some (("", true), (0, false, some "Cannot convert empty value to int\n")) := by
  have h := C10_boolean_key_getters
    ((NewConfigFromString "somekey").toOption.getD NewConfig) "somekey"
    ⟨"somekey", "somekey", [none]⟩ (by decide) (by decide) (by decide)
  obtain ⟨h1, _, h3⟩ := h
  have hc : (NewConfigFromString "somekey").toOption =
      some ((NewConfigFromString "somekey").toOption.getD NewConfig) := by decide
  rw [hc]
  simp only [Option.map_some']
  rw [h1, h3]

/-! ## C4: ParseSectionKey (config.go 480-493) -/

/-- Splitting on dots is a left inverse of joining with dots, for non-empty
lists of dot-free components. -/
theorem goSplitDots_goJoinDots (parts : List String) (h1 : parts ≠ [])
    (h2 : ∀ p ∈ parts, '.' ∉ p.data) :
    goSplitDots (goJoinDots parts) = parts := by
  unfold goSplitDots goJoinDots
  have hx : ∀ l ∈ parts.map (·.data), '.' ∉ l := by
    intro l hl
    obtain ⟨p, hp, rfl⟩ := List.mem_map.mp hl
    exact h2 p hp
  have hls : parts.map (·.data) ≠ [] := by
    simpa using h1
  rw [show (String.mk (['.'].intercalate (parts.map (·.data)))).data =
        ['.'].intercalate (parts.map (·.data)) from rfl]
  rw [List.splitOn_intercalate _ '.' hx hls]
  rw [List.map_map]
  exact List.map_id'' (fun p => rfl) parts

/-- **C4.**  `ParseSectionKey` splits its input on dots: one component is a
bare key at base scope, two are section.key, three are
section.subsection.key, and with more than three all middle components are
re-joined with dots into one literal subsection name; the section and key
components are lowercased while the subsection keeps its exact case. -/
theorem C4_parse_section_key (parts : List String) (h1 : parts ≠ [])
    (h2 : ∀ p ∈ parts, '.' ∉ p.data) :
    ParseSectionKey (goJoinDots parts) = specSectionKeyRule parts := by
  unfold ParseSectionKey
  rw [goSplitDots_goJoinDots parts h1 h2]
  rcases parts with _ | ⟨a, _ | ⟨b, _ | ⟨c, _ | ⟨d, rest⟩⟩⟩⟩ <;> rfl

/-- **C4, witness.**  Concrete instances of each arity, matching the
repository's own `TestParseSectionKey` cases. -/
theorem C4_parse_section_key_witness :
    ParseSectionKey "fOo.Y" = ("foo", "", "y") ∧
    ParseSectionKey "someThing.Like.THAT" = ("something", "Like", "that") ∧
    ParseSectionKey "someThing.sub.Area.With.Many.here" =
      ("something", "sub.Area.With.Many", "here") ∧
    ParseSectionKey "key" = ("", "", "key") := by
  have h2 := C4_parse_section_key ["fOo", "Y"] (by decide) (by decide)
  have h3 := C4_parse_section_key ["someThing", "Like", "THAT"] (by decide) (by decide)
  have h6 := C4_parse_section_key ["someThing", "sub", "Area", "With", "Many", "here"]
    (by decide) (by decide)
  have h1 := C4_parse_section_key ["key"] (by decide) (by decide)
  refine ⟨?_, ?_, ?_, ?_⟩
  · simpa using h2
  · simpa using h3
  · simpa using h6
  · simpa using h1

/-! ## C7: subsection-name escapes (parser lines 140-155) -/

theorem readSubsectionLoop_backslash (st : PState) (lines : List String) (inSub : Bool)
    (cs : List Char) :
    readSubsectionLoop st lines inSub false ('\\' :: cs) =
      readSubsectionLoop (bump st) lines inSub true cs := by
  rw [readSubsectionLoop]
  simp [show goIsSpace '\\' = false from rfl, show ¬(('\\' : Char) = '"') from by decide]

theorem readSubsectionLoop_escape (st : PState) (lines : List String) (inSub : Bool)
    (c : Char) (rest : List Char) :
    readSubsectionLoop st lines inSub true (c :: rest) =
      readSubsectionLoop
        { st with charPos := st.charPos + 1,
                  subSection := st.subSection ++ subsectionEscape c }
        lines inSub false rest := by
  rw [readSubsectionLoop]
  by_cases h1 : c = '"'
  · simp [h1, subsectionEscape, bump]
    rfl
  · by_cases h2 : c = 't'
    · simp [h2, subsectionEscape, bump]
      rfl
    · by_cases h3 : c = 'n'
      · simp [h3, subsectionEscape, bump]
        rfl
      · by_cases h4 : c = '\\'
        · simp [h4, subsectionEscape, bump]
          rfl
        · simp [h1, h2, h3, h4, subsectionEscape, bump]

/-- **C7.**  While reading a quoted subsection name, a backslash followed by
`"`, `t`, `n` or `\` appends the corresponding character (quote, tab,
newline, backslash) to the name, and a backslash followed by ANY other
character appends nothing — both characters are consumed, no error is
raised, and parsing continues (`subsectionEscape` maps the four recognized
characters to their expansions and everything else to the empty string).
The concrete conjuncts run the whole pipeline: the unrecognized escape
`\q` in `[sec "a\qb"]` silently disappears, giving subsection name `ab`,
while `\t`/`\"` in a header expand to a tab and a quote. -/
theorem C7_subsection_escape :
    (∀ (st : PState) (lines : List String) (inSub : Bool) (c : Char) (rest : List Char),
      readSubsectionLoop st lines inSub false ('\\' :: c :: rest) =
        readSubsectionLoop
          { st with charPos := st.charPos + 2,
                    subSection := st.subSection ++ subsectionEscape c }
          lines inSub false rest) ∧
    (NewConfigFromString "[sec \"a\\qb\"]\nk = v" =
      .ok ⟨[⟨"sec", "sec", [⟨"ab", [⟨"k", "k", [some "v"]⟩]⟩], []⟩], []⟩) ∧
    (NewConfigFromString "[sec \"a\\tb\\\"c\"]\nk = v" =
      .ok ⟨[⟨"sec", "sec", [⟨"a\tb\"c", [⟨"k", "k", [some "v"]⟩]⟩], []⟩], []⟩) := by
  refine ⟨?_, by decide, by decide⟩
  intro st lines inSub c rest
  rw [readSubsectionLoop_backslash, readSubsectionLoop_escape]
  rfl

/-! ## C6: key grammar (parser lines 178-217) -/

/-- **C6, amended.**  In `readKeyValue`: a character that is not a letter
(model: ASCII letter) where a key must start is a fatal positioned error; a
character that is not a letter, digit or hyphen inside a key is a fatal
positioned error; letters, digits and hyphens are accepted and appended.
Both errors report the offending character — the error raised inside the
key does NOT include the partially-built key (see the counterexample
theorem); only the error for a stray character after a whitespace gap
(parser line 200) quotes the key. -/
theorem C6_key_grammar (st : PState) (lines : List String) (key : String) (c : Char)
    (rest : List Char) :
    (goIsLetter c = false → goIsSpace c = false → c ≠ '=' →
      readKeyValueLoop st lines false false "" (c :: rest) =
        .error (mkError (bump st)
          ("Unexpected '" ++ String.singleton c ++ "' starting key, expected a letter\n"))) ∧
    (goIsLetter c = false → goIsDigit c = false → c ≠ '-' → goIsSpace c = false → c ≠ '=' →
      readKeyValueLoop st lines true false key (c :: rest) =
        .error (mkError (bump st)
          ("Unexpected '" ++ String.singleton c ++
           "' in key, expected a ascii letter, hyphen or digit\n"))) ∧
    ((goIsLetter c = true ∨ goIsDigit c = true ∨ c = '-') → goIsSpace c = false → c ≠ '=' →
      readKeyValueLoop st lines true false key (c :: rest) =
        readKeyValueLoop (bump st) lines true false (key.push c) rest) := by
  refine ⟨?_, ?_, ?_⟩
  · intro h1 h2 h3
    rw [readKeyValueLoop]
    simp [h1, h2, h3]
  · intro h1 h2 h3 h4 h5
    rw [readKeyValueLoop]
    simp [h1, h2, h3, h4, h5]
  · intro h1 h2 h3
    rw [readKeyValueLoop]
    rcases h1 with h | h | h
    · simp [h, h2, h3]
    · simp [h, h2, h3]
    · subst h
      simp [h2, h3]

/-- **C6, witness.**  The grammar theorem applied at `!` (rejected at key
start and inside a key, with the exact positioned messages) and at the
digit `1` (accepted inside a key). -/
theorem C6_key_grammar_witness :
    readKeyValueLoop initialPState [] false false "" ['!'] =
      .error (mkError (bump initialPState) "Unexpected '!' starting key, expected a letter\n") ∧
    readKeyValueLoop initialPState [] true false "ab" ['!'] =
      .error (mkError (bump initialPState)
        "Unexpected '!' in key, expected a ascii letter, hyphen or digit\n") ∧
    readKeyValueLoop initialPState [] true false "ab" ['1'] =
      readKeyValueLoop (bump initialPState) [] true false ("ab".push '1') [] := by
  have h1 := (C6_key_grammar initialPState [] "" '!' []).1
  have h2 := (C6_key_grammar initialPState [] "ab" '!' []).2.1
  have h3 := (C6_key_grammar initialPState [] "ab" '1' []).2.2
  exact ⟨h1 (by decide) (by decide) (by decide),
    h2 (by decide) (by decide) (by decide) (by decide) (by decide),
    h3 (Or.inr (Or.inl (by decide))) (by decide) (by decide)⟩

/-- **C6, counterexample.**  The claim says the in-key error "reports the
partially-built key".  Parsing the line `ab! = c` fails at the `!` with the
partially-built key `ab`, but the message — reproduced here exactly —
mentions only the offending character; `ab` is not a substring of it. -/
theorem C6_error_lacks_partial_key :
    NewConfigFromString "ab! = c" =
      .error ⟨"Unexpected '!' in key, expected a ascii letter, hyphen or digit\n",
        "ab! = c", 1, 3⟩ ∧
    ¬ ("ab".data <:+:
        "Unexpected '!' in key, expected a ascii letter, hyphen or digit\n".data) := by
  refine ⟨by decide, by decide⟩

/-! ## C1: serialize / re-parse round trip -/

/-- **C1, failing evaluation.**  `EscapeValueString` (config.go 632-633)
escapes a tab as backslash + LITERAL TAB (`"\\\t"`) and a newline as
backslash + literal newline, neither of which the value grammar can read
back.  The well-formed line `k = a\tb` stores the value `a<TAB>b`;
serializing yields the line `\tk = a\<TAB>b`, and re-parsing it fails:
the tab after the backslash is buffered as whitespace while the escape
stays pending, so the escape consumes the following `b` and errors.  For a
newline-containing value (from `k = a\nb`), serializing emits a literal
newline, which re-parses as a line continuation and silently yields the
WRONG value `ab`.  Both break the claimed value round trip. -/
theorem C1_roundtrip_fails_for_tab_and_newline :
    NewConfigFromString "k = a\\tb" = .ok ⟨[], [⟨"k", "k", [some "a\tb"]⟩]⟩ ∧
    Config.render ⟨[], [⟨"k", "k", [some "a\tb"]⟩]⟩ = "\tk = a\\\tb\n" ∧
    NewConfigFromString (Config.render ⟨[], [⟨"k", "k", [some "a\tb"]⟩]⟩) =
      .error ⟨"Unexpected 'b' in escape only double-quote, n, t and \\ are allowed to be escaped.\n",
        "\tk = a\\\tb", 1, 9⟩ ∧
    NewConfigFromString "k = a\\nb" = .ok ⟨[], [⟨"k", "k", [some "a\nb"]⟩]⟩ ∧
    NewConfigFromString (Config.render ⟨[], [⟨"k", "k", [some "a\nb"]⟩]⟩) =
      .ok ⟨[], [⟨"k", "k", [some "ab"]⟩]⟩ := by
  refine ⟨by decide, by decide, by decide, by decide, by decide⟩

/-! ## C8: missing-value policy for scalar fields (config.go 108-218) -/

/-- **C8, amended.**  For every scalar target field whose path resolves to
no value (`confVal` nil or without values): `required` yields the exact
"Could not populate required ..." error whatever the default; with neither
required nor a default the field's pre-existing content is returned
untouched (no-op, not zeroed) with no error; with a default, the default
literal is parsed by the TYPE'S OWN default parser — for string it is taken
verbatim (identical to the found-value path), for int/uint it goes through
the same `strconv.ParseInt`/`ParseUint` as a found value (so a parseable
default behaves exactly as if found), but for bool it goes through
`strconv.ParseBool`, which is NOT the boolean coercion used for found
values (see the counterexample theorem). -/
theorem C8_missing_scalar_policy (retval : FieldVal) (key d : String)
    (confVal : Option ConfigValue)
    (hscalar : retval.isScalar = true) (hmiss : missingVal confVal = true) :
    (∀ hd : Bool, loadSetValue retval key d confVal true hd =
      .err ("Could not populate required " ++ retval.typeName ++ " no value for " ++ key)) ∧
    (loadSetValue retval key d confVal false false = .ok retval) ∧
    (∀ cur, loadSetValue (.vStr cur) key d confVal false true =
      loadSetValue (.vStr cur) key d (some ⟨"", "", [some d]⟩) false false) ∧
    (∀ cur, (goParseInt d 64).2 = true →
      loadSetValue (.vInt cur) key d confVal false true =
        loadSetValue (.vInt cur) key d (some ⟨"", "", [some d]⟩) false false) ∧
    (∀ cur, (goParseUint d).2 = true →
      loadSetValue (.vUint cur) key d confVal false true =
        loadSetValue (.vUint cur) key d (some ⟨"", "", [some d]⟩) false false) ∧
    (∀ (cur b : Bool), goParseBool d = some b →
      loadSetValue (.vBool cur) key d confVal false true = .ok (.vBool b)) := by
  refine ⟨?_, ?_, ?_, ?_, ?_, ?_⟩
  · intro hd
    cases retval <;> simp_all [loadSetValue, loadSetStr, loadSetInt, loadSetUint, loadSetBool,
      FieldVal.isScalar, FieldVal.typeName]
  · cases retval <;> simp_all [loadSetValue, loadSetStr, loadSetInt, loadSetUint, loadSetBool,
      FieldVal.isScalar, FieldVal.typeName]
  · intro cur
    simp only [loadSetValue, loadSetStr, hmiss,
      show missingVal (some ⟨"", "", [some d]⟩) = false from rfl]
    simp [ConfigValue.GetString, ConfigValue.ValuesAsStrings]
  · intro cur hp
    rcases hpair : goParseInt d 64 with ⟨i, b⟩
    rw [hpair] at hp
    simp only at hp
    subst hp
    simp only [loadSetValue, loadSetInt, hmiss,
      show missingVal (some ⟨"", "", [some d]⟩) = false from rfl]
    rw [hpair]
    simp [ConfigValue.GetInt, ConfigValue.ValuesAsInts, ConfigValue.ValuesAsInts.go, hpair]
  · intro cur hp
    rcases hpair : goParseUint d with ⟨n, b⟩
    rw [hpair] at hp
    simp only at hp
    subst hp
    simp only [loadSetValue, loadSetUint, hmiss,
      show missingVal (some ⟨"", "", [some d]⟩) = false from rfl]
    rw [hpair]
    simp [ConfigValue.GetUint, ConfigValue.ValuesAsUints, ConfigValue.ValuesAsUints.go, hpair]
  · intro cur b hb
    simp [loadSetValue, loadSetBool, hmiss, hb]

/-- **C8, witness.**  The policy theorem applied to a missing `int` field:
required errors, no-default leaves the pre-existing 7, default "5" behaves
exactly as a found "5". -/
theorem C8_missing_scalar_policy_witness :
    loadSetValue (.vInt 7) "user.age" "5" none true false =
      .err "Could not populate required int no value for user.age" ∧
    loadSetValue (.vInt 7) "user.age" "5" none false false = .ok (.vInt 7) ∧
    loadSetValue (.vInt 7) "user.age" "5" none false true =
      loadSetValue (.vInt 7) "user.age" "5" (some ⟨"", "", [some "5"]⟩) false false := by
  have h := C8_missing_scalar_policy (.vInt 7) "user.age" "5" none (by decide) (by decide)
  exact ⟨h.1 false, h.2.1, h.2.2.2.1 7 (by decide)⟩

/-- **C8, counterexample.**  The claim says a present default "is parsed
exactly as if it were the found value".  For a bool field with literal `t`:
as a default, `strconv.ParseBool` accepts it as `true`; as a found value,
the boolean coercion (`ValuesAsBools`) yields `false` — so the two parses
disagree on the same literal. -/
theorem C8_bool_default_not_as_found :
    loadSetValue (.vBool false) "k" "t" none false true = .ok (.vBool true) ∧
    loadSetValue (.vBool false) "k" "t" (some ⟨"k", "k", [some "t"]⟩) false false =
      .ok (.vBool false) := by
  refine ⟨by decide, by decide⟩

/-! ## C5: fixed-size array binding (config.go 268-292) -/

/-- When every slot has a value, each slot receives its value in order. -/
theorem loadStrArraySlots_full (key d : String) (req hd : Bool) (slots : List String)
    (vs : List (Option String)) (h : slots.length ≤ vs.length) :
    loadStrArraySlots key d req hd slots vs =
      .ok ((vs.take slots.length).map (fun v => v.getD "")) := by
  induction slots generalizing vs with
  | nil => simp [loadStrArraySlots]
  | cons slot slots ih =>
    cases vs with
    | nil => simp at h
    | cons v vrest =>
      simp only [List.length_cons, Nat.succ_le_succ_iff] at h
      simp [loadStrArraySlots, loadSetStr,
        show missingVal (some ⟨"", "", [v]⟩) = false from rfl,
        ConfigValue.GetString, ConfigValue.ValuesAsStrings, ih vrest h]

/-- Unfilled slots with neither `required` nor a default keep their
pre-existing content. -/
theorem loadStrArraySlots_empty_nodefault (key d : String) (slots : List String) :
    loadStrArraySlots key d false false slots [] = .ok slots := by
  induction slots with
  | nil => simp [loadStrArraySlots]
  | cons slot slots ih => simp [loadStrArraySlots, loadSetStr, missingVal, ih]

/-- Every unfilled slot receives the default. -/
theorem loadStrArraySlots_empty_default (key d : String) (slots : List String) :
    loadStrArraySlots key d false true slots [] =
      .ok (List.replicate slots.length d) := by
  induction slots with
  | nil => simp [loadStrArraySlots]
  | cons slot slots ih =>
    simp [loadStrArraySlots, loadSetStr, missingVal, ih, List.replicate]

/-- An unfilled slot under `required` is an error. -/
theorem loadStrArraySlots_empty_required (key d : String) (hd : Bool) (slot : String)
    (slots : List String) :
    loadStrArraySlots key d true hd (slot :: slots) [] =
      .error ("Could not populate required string no value for " ++ key) := by
  simp [loadStrArraySlots, loadSetStr, missingVal]

/-- The slot loop first consumes all values in order, then treats the
remaining slots as value-less. -/
theorem loadStrArraySlots_split (key d : String) (req hd : Bool) (slots : List String)
    (vs : List (Option String)) (h : vs.length ≤ slots.length) :
    loadStrArraySlots key d req hd slots vs =
      match loadStrArraySlots key d req hd (slots.drop vs.length) [] with
      | .ok rest => .ok (vs.map (fun v => v.getD "") ++ rest)
      | .error e => .error e := by
  induction vs generalizing slots with
  | nil =>
    simp only [List.length_nil, List.drop_zero, List.map_nil, List.nil_append]
    cases hres : loadStrArraySlots key d req hd slots [] <;> simp
  | cons v vrest ih =>
    cases slots with
    | nil => simp at h
    | cons slot srest =>
      simp only [List.length_cons, Nat.succ_le_succ_iff] at h
      simp only [loadStrArraySlots, loadSetStr,
        show missingVal (some ⟨"", "", [v]⟩) = false from rfl,
        ConfigValue.GetString, ConfigValue.ValuesAsStrings, List.drop_succ_cons,
        List.drop_zero, List.drop_one, List.length_cons, List.tail_cons,
        Bool.false_eq_true, if_false]
      rw [ih srest h]
      cases loadStrArraySlots key d req hd (srest.drop vrest.length) [] <;> simp

/-- **C5.**  Binding a fixed-size string array of length N (`cur` lists the
N pre-existing slot contents) against a present entry with M values, in
file order: if M > N only the last N values are kept (earliest dropped) and
assigned in order, whatever the required/default flags; if M ≤ N the first
M slots receive the values and every remaining slot follows the scalar
policy — kept unchanged with neither flag, filled with the default when one
is present, and an error when `required` is set and the list is short
(M < N). -/
theorem C5_fixed_array_binding (cur : List String) (key d : String) (cv : ConfigValue) :
    (∀ req hd : Bool, cv.Value.length > cur.length →
      loadSetValue (.vStrArray cur) key d (some cv) req hd =
        .ok (.vStrArray ((cv.Value.drop (cv.Value.length - cur.length)).map
          (fun v => v.getD "")))) ∧
    (cv.Value.length ≤ cur.length →
      loadSetValue (.vStrArray cur) key d (some cv) false false =
        .ok (.vStrArray (cv.Value.map (fun v => v.getD "") ++ cur.drop cv.Value.length))) ∧
    (cv.Value.length ≤ cur.length →
      loadSetValue (.vStrArray cur) key d (some cv) false true =
        .ok (.vStrArray (cv.Value.map (fun v => v.getD "") ++
          List.replicate (cur.length - cv.Value.length) d))) ∧
    (∀ hd : Bool, cv.Value.length < cur.length →
      loadSetValue (.vStrArray cur) key d (some cv) true hd =
        .err ("Could not populate required string no value for " ++ key)) ∧
    (∀ req hd : Bool, cv.Value.length = cur.length →
      loadSetValue (.vStrArray cur) key d (some cv) req hd =
        .ok (.vStrArray (cv.Value.map (fun v => v.getD "")))) := by
  refine ⟨?_, ?_, ?_, ?_, ?_⟩
  · intro req hd hgt
    have hlen : (cv.Value.drop (cv.Value.length - cur.length)).length = cur.length := by
      simp [Nat.sub_sub_self (le_of_lt hgt)]
    simp only [loadSetValue, if_pos hgt]
    rw [loadStrArraySlots_full _ _ _ _ _ _ (le_of_eq hlen.symm)]
    rw [List.take_of_length_le (le_of_eq hlen)]
  · intro hle
    simp only [loadSetValue, if_neg (not_lt_of_le hle)]
    rw [loadStrArraySlots_split _ _ _ _ _ _ hle, loadStrArraySlots_empty_nodefault]
  · intro hle
    simp only [loadSetValue, if_neg (not_lt_of_le hle)]
    rw [loadStrArraySlots_split _ _ _ _ _ _ hle, loadStrArraySlots_empty_default]
    simp
  · intro hd hlt
    simp only [loadSetValue, if_neg (not_lt_of_le (le_of_lt hlt))]
    rw [loadStrArraySlots_split _ _ _ _ _ _ (le_of_lt hlt)]
    cases hdrop : cur.drop cv.Value.length with
    | nil =>
      exfalso
      have := congrArg List.length hdrop
      simp at this
      omega
    | cons a l =>
      rw [loadStrArraySlots_empty_required]
  · intro req hd heq
    simp only [loadSetValue, if_neg (not_lt_of_le (le_of_eq heq))]
    rw [loadStrArraySlots_split _ _ _ _ _ _ (le_of_eq heq), heq, List.drop_length]
    simp [loadStrArraySlots]

/-- **C5, witness.**  The spec's own example: values `[a,b,c,d]` into a
length-2 array give `[c,d]`; into a length-6 array give
`[a,b,c,d,"",""]` without a default, `[a,b,c,d,<missing>,<missing>]` with
one, and an error when required. -/
theorem C5_fixed_array_binding_witness :
    loadSetValue (.vStrArray ["", ""]) "arrays.key1" "<missing>"
      (some ⟨"key1", "key1", [some "a", some "b", some "c", some "d"]⟩) false false =
      .ok (.vStrArray ["c", "d"]) ∧
    loadSetValue (.vStrArray ["", "", "", "", "", ""]) "arrays.key1" "<missing>"
      (some ⟨"key1", "key1", [some "a", some "b", some "c", some "d"]⟩) false false =
      .ok (.vStrArray ["a", "b", "c", "d", "", ""]) ∧
    loadSetValue (.vStrArray ["", "", "", "", "", ""]) "arrays.key1" "<missing>"
      (some ⟨"key1", "key1", [some "a", some "b", some "c", some "d"]⟩) false true =
      .ok (.vStrArray ["a", "b", "c", "d", "<missing>", "<missing>"]) ∧
    loadSetValue (.vStrArray ["", "", "", "", "", ""]) "arrays.key1" "<missing>"
      (some ⟨"key1", "key1", [some "a", some "b", some "c", some "d"]⟩) true false =
      .err "Could not populate required string no value for arrays.key1" := by
  have h2 := C5_fixed_array_binding ["", ""] "arrays.key1" "<missing>"
    ⟨"key1", "key1", [some "a", some "b", some "c", some "d"]⟩
  have h6 := C5_fixed_array_binding ["", "", "", "", "", ""] "arrays.key1" "<missing>"
    ⟨"key1", "key1", [some "a", some "b", some "c", some "d"]⟩
  refine ⟨?_, ?_, ?_, ?_⟩
  · simpa using h2.1 false false (by decide)
  · simpa using h6.2.1 (by decide)
  · simpa using h6.2.2.1 (by decide)
  · simpa using h6.2.2.2.1 false (by decide)

/-! ## C3: error aggregation in loadStruct (config.go 374-418) -/

theorem errsInsert_ne_nil (es : List (String × String)) (k v : String) :
    errsInsert es k v ≠ [] := by
  cases es with
  | nil => simp [errsInsert]
  | cons p rest =>
    simp only [errsInsert]
    split <;> simp

theorem hasKey_errsInsert_self (es : List (String × String)) (k v : String) :
    hasKey (errsInsert es k v) k = true := by
  induction es with
  | nil => simp [errsInsert, hasKey]
  | cons p rest ih =>
    simp only [errsInsert]
    split
    · simp [hasKey]
    · simp only [hasKey, List.any_cons] at ih ⊢
      simp [ih]

theorem hasKey_errsInsert_mono (es : List (String × String)) (k k' v : String)
    (h : hasKey es k = true) : hasKey (errsInsert es k' v) k = true := by
  induction es with
  | nil => simp [hasKey] at h
  | cons p rest ih =>
    simp only [errsInsert]
    by_cases hp : p.1 = k'
    · rw [if_pos hp]
      simp only [hasKey, List.any_cons, Bool.or_eq_true, decide_eq_true_eq] at h ⊢
      rcases h with h | h
      · left
        rw [← hp]
        exact h
      · right
        exact h
    · rw [if_neg hp]
      simp only [hasKey, List.any_cons, Bool.or_eq_true, decide_eq_true_eq] at h ⊢
      rcases h with h | h
      · left
        exact h
      · right
        have := ih (by simpa [hasKey] using h)
        simpa [hasKey] using this

theorem hasKey_bindStep_mono (c : Config) (ns : String) (k : String)
    (es : List (String × String)) (fd : FieldDesc)
    (h : hasKey es k = true) : hasKey (bindStep c ns es fd) k = true := by
  unfold bindStep
  cases (bindField c ns fd).2 with
  | none => exact h
  | some p => exact hasKey_errsInsert_mono es k p.1 p.2 h

theorem hasKey_foldl_mono (c : Config) (ns : String) (k : String)
    (fields : List FieldDesc) (es : List (String × String))
    (h : hasKey es k = true) :
    hasKey (fields.foldl (bindStep c ns) es) k = true := by
  induction fields generalizing es with
  | nil => simpa using h
  | cons fd rest ih =>
    simp only [List.foldl_cons]
    exact ih (bindStep c ns es fd) (hasKey_bindStep_mono c ns k es fd h)

/-- Every field failure is recorded under its full path, whatever came
before it in the walk. -/
theorem failure_recorded (c : Config) (ns : String) (fields : List FieldDesc)
    (fd : FieldDesc) (hmem : fd ∈ fields) (p : String × String)
    (hfail : (bindField c ns fd).2 = some p) (es : List (String × String)) :
    hasKey (fields.foldl (bindStep c ns) es) p.1 = true := by
  induction fields generalizing es with
  | nil => simp at hmem
  | cons f rest ih =>
    rcases List.mem_cons.mp hmem with rfl | hmem'
    · simp only [List.foldl_cons]
      apply hasKey_foldl_mono
      unfold bindStep
      rw [hfail]
      exact hasKey_errsInsert_self es p.1 p.2
    · simp only [List.foldl_cons]
      exact ih hmem' (bindStep c ns es f)

theorem bindStep_eq_nil_iff (c : Config) (ns : String) (es : List (String × String))
    (fd : FieldDesc) :
    bindStep c ns es fd = [] ↔ es = [] ∧ (bindField c ns fd).2 = none := by
  unfold bindStep
  cases h : (bindField c ns fd).2 with
  | none => simp
  | some p => simp [errsInsert_ne_nil]

theorem foldl_bindStep_eq_nil_iff (c : Config) (ns : String) (fields : List FieldDesc)
    (es : List (String × String)) :
    fields.foldl (bindStep c ns) es = [] ↔
      es = [] ∧ ∀ fd ∈ fields, (bindField c ns fd).2 = none := by
  induction fields generalizing es with
  | nil => simp
  | cons f rest ih =>
    simp only [List.foldl_cons]
    rw [ih (bindStep c ns es f), bindStep_eq_nil_iff]
    constructor
    · rintro ⟨⟨h1, h2⟩, h3⟩
      exact ⟨h1, by
        intro fd hfd
        rcases List.mem_cons.mp hfd with rfl | hm
        · exact h2
        · exact h3 fd hm⟩
    · rintro ⟨h1, h2⟩
      exact ⟨⟨h1, h2 f (by simp)⟩, fun fd hm => h2 fd (by simp [hm])⟩

/-- The accumulator form of the walk, per field (the key induction). -/
theorem loadStructGo_spec (c : Config) (ns : String) (fields : List FieldDesc)
    (hb : ∀ fd ∈ fields, badTag fd = false)
    (hp : ∀ fd ∈ fields, fieldPanics c ns fd = false)
    (vals : List FieldVal) (errs : List (String × String)) :
    loadStructGo c ns fields vals errs =
      .finished (vals.reverse ++ fields.map (fun fd => (bindField c ns fd).1))
        (fields.foldl (bindStep c ns) errs) := by
  induction fields generalizing vals errs with
  | nil => simp [loadStructGo]
  | cons fd rest ih =>
    have hbf : badTag fd = false := hb fd (by simp)
    have hpf : fieldPanics c ns fd = false := hp fd (by simp)
    have hbr : ∀ f ∈ rest, badTag f = false := fun f hf => hb f (by simp [hf])
    have hpr : ∀ f ∈ rest, fieldPanics c ns f = false := fun f hf => hp f (by simp [hf])
    by_cases hcs : fd.CanSet
    · by_cases hk : fd.gcKey = ""
      · have hbind : bindField c ns fd = (fd.init, none) := by
          simp [bindField, fieldActive, hk]
        rw [loadStructGo]
        rw [if_neg (by simp [hcs]), if_pos hk]
        rw [ih hbr hpr]
        simp [hbind, bindStep]
      · have hactive : fieldActive fd = true := by simp [fieldActive, hcs, hk]
        have hnotag : ¬ (fd.gcRequired ≠ "" ∧ (goParseBool fd.gcRequired).isNone = true) := by
          intro hcon
          simp [badTag, hactive, hcon.1, hcon.2] at hbf
        rw [loadStructGo]
        rw [if_neg (by simp [hcs]), if_neg hk, if_neg hnotag]
        cases hlsv : loadSetValue fd.init (fieldKey ns fd) (fieldDefault fd).1
            (c.GetKeyValuesRaw (fieldKey ns fd)) (fieldRequired fd) (fieldDefault fd).2 with
        | ok v =>
          have hbind : bindField c ns fd = (v, none) := by
            simp [bindField, hactive, hlsv]
          show loadStructGo c ns rest (v :: vals) errs = _
          rw [ih hbr hpr]
          simp [hbind, bindStep]
        | err e =>
          have hbind : bindField c ns fd = (fd.init,
              some (fieldKey ns fd, "Could not populate " ++ fd.init.typeName ++ " field \"" ++
                fd.Name ++ "\": " ++ e)) := by
            simp [bindField, hactive, hlsv]
          show loadStructGo c ns rest (fd.init :: vals)
            (errsInsert errs (fieldKey ns fd)
              ("Could not populate " ++ fd.init.typeName ++ " field \"" ++
                fd.Name ++ "\": " ++ e)) = _
          rw [ih hbr hpr]
          simp [hbind, bindStep]
        | nilPanic =>
          exfalso
          simp [fieldPanics, hactive, hlsv] at hpf
    · have hbind : bindField c ns fd = (fd.init, none) := by
        simp [bindField, fieldActive, hcs]
      rw [loadStructGo]
      rw [if_pos (by simp [hcs])]
      rw [ih hbr hpr]
      simp [hbind, bindStep]

/-- **C3, amended.**  Provided every bound field's `gcRequired` tag parses
as a boolean and no field hits the nil-pointer array case: the walk binds
every settable tagged field independently of every other field's outcome
(each final field content is `bindField` of that field alone), records each
field's failure in the `LoadError` map under the field's full path, and the
overall call fails exactly when that map is non-empty, i.e. exactly when
some field failed. -/
theorem C3_error_aggregation (c : Config) (ns : String) (fields : List FieldDesc)
    (hb : ∀ fd ∈ fields, badTag fd = false)
    (hp : ∀ fd ∈ fields, fieldPanics c ns fd = false) :
    (loadStruct c ns fields =
      some (if bindErrsList c ns fields = []
            then .ok (fields.map (fun fd => (bindField c ns fd).1))
            else .error (.load (bindErrsList c ns fields)))) ∧
    ((∃ ge, loadStruct c ns fields = some (.error ge)) ↔ bindErrsList c ns fields ≠ []) ∧
    (bindErrsList c ns fields ≠ [] ↔ ∃ fd ∈ fields, (bindField c ns fd).2 ≠ none) ∧
    (∀ fd ∈ fields, ∀ p, (bindField c ns fd).2 = some p →
      hasKey (bindErrsList c ns fields) p.1 = true) := by
  have hmain : loadStruct c ns fields =
      some (if bindErrsList c ns fields = []
            then .ok (fields.map (fun fd => (bindField c ns fd).1))
            else .error (.load (bindErrsList c ns fields))) := by
    unfold loadStruct
    rw [loadStructGo_spec c ns fields hb hp [] []]
    simp only [List.reverse_nil, List.nil_append]
    rw [show fields.foldl (bindStep c ns) [] = bindErrsList c ns fields from rfl]
    split <;> rfl
  refine ⟨hmain, ?_, ?_, ?_⟩
  · constructor
    · rintro ⟨ge, hge⟩ hnil
      rw [hmain, if_pos hnil] at hge
      simp at hge
    · intro hnil
      refine ⟨.load (bindErrsList c ns fields), ?_⟩
      rw [hmain, if_neg hnil]
  · rw [show bindErrsList c ns fields = fields.foldl (bindStep c ns) [] from rfl]
    rw [ne_eq, foldl_bindStep_eq_nil_iff]
    constructor
    · intro h
      by_contra hcon
      push_neg at hcon
      exact h ⟨rfl, fun fd hfd => by
        have := hcon fd hfd
        simpa using this⟩
    · rintro ⟨fd, hfd, hne⟩ ⟨_, hall⟩
      exact hne (hall fd hfd)
  · intro fd hfd p hfail
    exact failure_recorded c ns fields fd hfd p hfail []

/-- **C3, witness.**  A four-field target (the repository's `Person` shape)
against a store holding only `user.name`: the required `user.favouriteColour`
fails and is recorded under exactly that path; the other three fields bind
(name found; email and age from their defaults); the call returns the
one-entry `LoadError` map. -/
theorem C3_error_aggregation_witness :
    loadStruct ⟨[⟨"user", "user", [], [⟨"name", "name", [some "Joe Bloggs"]⟩]⟩], []⟩ ""
      [⟨"Name", true, "user.name", "", none, .vStr ""⟩,
       ⟨"Email", true, "user.email", "", some "someone@example.com", .vStr ""⟩,
       ⟨"Age", true, "user.age", "", some "5", .vInt 0⟩,
       ⟨"FavColour", true, "user.favouriteColour", "true", none, .vStr ""⟩] =
      some (.error (.load [("user.favouriteColour",
        "Could not populate string field \"FavColour\": Could not populate required string no value for user.favouriteColour")])) ∧
    hasKey (bindErrsList ⟨[⟨"user", "user", [], [⟨"name", "name", [some "Joe Bloggs"]⟩]⟩], []⟩ ""
      [⟨"Name", true, "user.name", "", none, .vStr ""⟩,
       ⟨"Email", true, "user.email", "", some "someone@example.com", .vStr ""⟩,
       ⟨"Age", true, "user.age", "", some "5", .vInt 0⟩,
       ⟨"FavColour", true, "user.favouriteColour", "true", none, .vStr ""⟩])
      "user.favouriteColour" = true := by
  have h := C3_error_aggregation ⟨[⟨"user", "user", [], [⟨"name", "name", [some "Joe Bloggs"]⟩]⟩], []⟩ ""
    [⟨"Name", true, "user.name", "", none, .vStr ""⟩,
     ⟨"Email", true, "user.email", "", some "someone@example.com", .vStr ""⟩,
     ⟨"Age", true, "user.age", "", some "5", .vInt 0⟩,
     ⟨"FavColour", true, "user.favouriteColour", "true", none, .vStr ""⟩]
    (by decide) (by decide)
  refine ⟨?_, ?_⟩
  · rw [h.1]
    decide
  · exact h.2.2.2 ⟨"FavColour", true, "user.favouriteColour", "true", none, .vStr ""⟩
      (by decide) ("user.favouriteColour",
        "Could not populate string field \"FavColour\": Could not populate required string no value for user.favouriteColour")
      (by decide)

/-- **C3, counterexample.**  The claim quantifies over every target struct,
but a malformed `gcRequired` tag ("banana") makes `loadStruct` abort at once
with a PLAIN error: no field-path map is returned, and the second field —
which on its own fails as required-and-missing — is never attempted and
appears under no key. -/
theorem C3_tag_abort_skips_fields :
    loadStruct NewConfig ""
      [⟨"A", true, "user.colour", "banana", none, .vStr ""⟩,
       ⟨"B", true, "user.size", "true", none, .vStr ""⟩] =
      some (.error (.plain "Could not parse required:\"banana\" as boolean in field \"A\"\n")) ∧
    (bindField NewConfig "" ⟨"B", true, "user.size", "true", none, .vStr ""⟩).2 =
      some ("user.size",
        "Could not populate string field \"B\": Could not populate required string no value for user.size") := by
  refine ⟨by decide, by decide⟩

/-! ## C9: value-set invariants (config.go 504-507, 637-650; parser) -/

theorem name_of_mem_setUpdate (lcKey key : String) (v : Option String)
    (l : List ConfigValue) (x : ConfigValue) (hx : x ∈ setUpdate lcKey key v l) :
    x.Name = lcKey ∨ x ∈ l := by
  induction l with
  | nil =>
    simp [setUpdate] at hx
    simp [hx]
  | cons cv rest ih =>
    simp only [setUpdate] at hx
    split at hx
    · rcases List.mem_cons.mp hx with rfl | hm
      · rename_i hname
        left
        exact hname
      · right
        simp [hm]
    · rcases List.mem_cons.mp hx with rfl | hm
      · right
        simp
      · rcases ih hm with h | h
        · left
          exact h
        · right
          simp [h]

theorem setUpdate_WF (lcKey key : String) (v : Option String) (l : List ConfigValue)
    (hlc : lcKey = goToLower key) (hWF : ConfigValueSet.WF l) :
    ConfigValueSet.WF (setUpdate lcKey key v l) := by
  induction l with
  | nil =>
    refine ⟨by simp [setUpdate], ?_⟩
    intro cv hcv
    simp [setUpdate] at hcv
    simp [hcv, hlc]
  | cons cv rest ih =>
    obtain ⟨hpw, hnames⟩ := hWF
    rw [List.pairwise_cons] at hpw
    obtain ⟨hhead, hrest⟩ := hpw
    have ihWF := ih ⟨hrest, fun x hx => hnames x (by simp [hx])⟩
    simp only [setUpdate]
    split
    · refine ⟨List.pairwise_cons.mpr ⟨fun b hb => hhead b hb, hrest⟩, ?_⟩
      intro x hx
      rcases List.mem_cons.mp hx with rfl | hm
      · exact hnames cv (by simp)
      · exact hnames x (by simp [hm])
    · rename_i hne
      refine ⟨List.pairwise_cons.mpr ⟨?_, ihWF.1⟩, ?_⟩
      · intro b hb
        rcases name_of_mem_setUpdate lcKey key v rest b hb with h | h
        · rw [h]
          exact fun hcon => hne hcon
        · exact hhead b h
      · intro x hx
        rcases List.mem_cons.mp hx with rfl | hm
        · exact hnames x (by simp)
        · exact ihWF.2 x hm

theorem setUpdate_not_found (lcKey key : String) (v : Option String) (l : List ConfigValue)
    (h : ∀ cv ∈ l, ¬ (cv.Name = lcKey)) :
    setUpdate lcKey key v l = l ++ [{ Name := lcKey, OrigCaseName := key, Value := [v] }] := by
  induction l with
  | nil => simp [setUpdate]
  | cons cv rest ih =>
    simp only [setUpdate]
    rw [if_neg (h cv (by simp))]
    rw [ih (fun x hx => h x (by simp [hx]))]
    simp

theorem find?_setUpdate_self (lcKey key : String) (v : Option String) (l : List ConfigValue)
    (cv : ConfigValue) (h : l.find? (fun x => x.Name = lcKey) = some cv) :
    (setUpdate lcKey key v l).find? (fun x => x.Name = lcKey) =
      some { cv with Value := cv.Value ++ [v] } := by
  induction l with
  | nil => simp at h
  | cons a rest ih =>
    by_cases ha : a.Name = lcKey
    · rw [List.find?_cons_of_pos _ (by simp [ha])] at h
      injection h with h
      subst h
      simp only [setUpdate, if_pos ha]
      rw [List.find?_cons_of_pos _ (by simp [ha])]
    · rw [List.find?_cons_of_neg _ (by simp [ha])] at h
      simp only [setUpdate, if_neg ha]
      rw [List.find?_cons_of_neg _ (by simp [ha])]
      exact ih h

theorem find?_setUpdate_other (lcKey key k : String) (v : Option String)
    (l : List ConfigValue) (hk : ¬ (k = lcKey)) :
    (setUpdate lcKey key v l).find? (fun x => x.Name = k) =
      l.find? (fun x => x.Name = k) := by
  induction l with
  | nil =>
    simp only [setUpdate, List.find?_nil]
    rw [List.find?_cons_of_neg _ (by simp; intro hcon; exact hk hcon.symm)]
    simp
  | cons a rest ih =>
    by_cases ha : a.Name = lcKey
    · simp only [setUpdate, if_pos ha]
      by_cases hak : a.Name = k
      · exact absurd (hak.symm.trans ha) hk
      · rw [List.find?_cons_of_neg _ (by simp only [decide_eq_true_eq]; intro hcon; exact hak hcon)]
        rw [List.find?_cons_of_neg _ (by simp [hak])]
    · simp only [setUpdate, if_neg ha]
      by_cases hak : a.Name = k
      · rw [List.find?_cons_of_pos _ (by simp [hak]), List.find?_cons_of_pos _ (by simp [hak])]
      · rw [List.find?_cons_of_neg _ (by simp [hak]), List.find?_cons_of_neg _ (by simp [hak])]
        exact ih

theorem mem_sectionsUpdate (slc name : String) (f : ConfigSection → ConfigSection)
    (l : List ConfigSection) (P : ConfigSection → Prop)
    (hf : ∀ s, P s → P (f s))
    (hfresh : P (f { Name := slc, OrigCaseName := name, SubSections := [], Values := [] }))
    (hl : ∀ s ∈ l, P s) :
    ∀ s ∈ sectionsUpdate slc name f l, P s := by
  induction l with
  | nil =>
    intro s hs
    simp [sectionsUpdate] at hs
    subst hs
    exact hfresh
  | cons a rest ih =>
    intro s hs
    simp only [sectionsUpdate] at hs
    split at hs
    · rcases List.mem_cons.mp hs with rfl | hm
      · exact hf a (hl a (by simp))
      · exact hl s (by simp [hm])
    · rcases List.mem_cons.mp hs with rfl | hm
      · exact hl s (by simp)
      · exact ih (fun x hx => hl x (by simp [hx])) s hm

theorem mem_subSectionsUpdate (name : String) (f : ConfigSubSection → ConfigSubSection)
    (l : List ConfigSubSection) (P : ConfigSubSection → Prop)
    (hf : ∀ ss, P ss → P (f ss))
    (hfresh : P (f { Name := name, Values := [] }))
    (hl : ∀ ss ∈ l, P ss) :
    ∀ ss ∈ subSectionsUpdate name f l, P ss := by
  induction l with
  | nil =>
    intro ss hss
    simp [subSectionsUpdate] at hss
    subst hss
    exact hfresh
  | cons a rest ih =>
    intro ss hss
    simp only [subSectionsUpdate] at hss
    split at hss
    · rcases List.mem_cons.mp hss with rfl | hm
      · exact hf a (hl a (by simp))
      · exact hl ss (by simp [hm])
    · rcases List.mem_cons.mp hss with rfl | hm
      · exact hl ss (by simp)
      · exact ih (fun x hx => hl x (by simp [hx])) ss hm

theorem addValue_WF (s : ConfigValueSet) (key : String) (v : Option String)
    (h : s.WF) : (s.addValue key v).WF :=
  setUpdate_WF (goToLower key) key v s rfl h

theorem AddKeyValue_WF (c : Config) (sectionName subSection key : String)
    (v : Option String) (hWF : c.WF) :
    (c.AddKeyValue sectionName subSection key v).WF := by
  obtain ⟨hbase, hsecs⟩ := hWF
  unfold Config.AddKeyValue
  split
  · exact ⟨addValue_WF c.BaseValues key v hbase, hsecs⟩
  · split
    · refine ⟨hbase, ?_⟩
      unfold Config.updateSection
      intro sec hsec
      refine mem_sectionsUpdate _ _ _ _ 
        (fun s => ConfigValueSet.WF s.Values ∧ ∀ ss ∈ s.SubSections, ConfigValueSet.WF ss.Values)
        ?_ ?_ hsecs sec hsec
      · exact fun s hs => ⟨addValue_WF s.Values key v hs.1, hs.2⟩
      · exact ⟨addValue_WF [] key v ⟨List.Pairwise.nil, by simp⟩,
          fun ss hss => absurd hss (by simp)⟩
    · refine ⟨hbase, ?_⟩
      unfold Config.updateSection
      intro sec hsec
      refine mem_sectionsUpdate _ _ _ _ 
        (fun s => ConfigValueSet.WF s.Values ∧ ∀ ss ∈ s.SubSections, ConfigValueSet.WF ss.Values)
        ?_ ?_ hsecs sec hsec
      · intro s hs
        refine ⟨hs.1, ?_⟩
        unfold ConfigSection.updateSubSection
        intro ss hss
        refine mem_subSectionsUpdate _ _ _ (fun x => ConfigValueSet.WF x.Values)
          ?_ ?_ hs.2 ss hss
        · exact fun x hx => addValue_WF x.Values key v hx
        · exact addValue_WF [] key v ⟨List.Pairwise.nil, by simp⟩
      · refine ⟨⟨List.Pairwise.nil, fun cv hcv => absurd hcv (List.not_mem_nil cv)⟩, ?_⟩
        unfold ConfigSection.updateSubSection
        intro ss hss
        refine mem_subSectionsUpdate _ _ _ (fun x => ConfigValueSet.WF x.Values)
          ?_ ?_ (fun x hx => absurd hx (by simp)) ss hss
        · exact fun x hx => addValue_WF x.Values key v hx
        · exact addValue_WF [] key v ⟨List.Pairwise.nil, by simp⟩


set_option maxHeartbeats 1000000 in
theorem readValueLine_config (cs : List Char) :
    ∀ (st : PState) (i : Bool) (val : String) (q h : Bool) (s : String) (st' : PState),
      (readValueLine st i val q h s cs).stOf = some st' → st'.config = st.config := by
  induction cs with
  | nil =>
    intro st i val q h s st' hEq
    simp only [readValueLine] at hEq
    split_ifs at hEq <;> simp [VLineOut.stOf] at hEq <;> rw [← hEq]
  | cons c rest ih =>
    intro st i val q h s st' hEq
    simp only [readValueLine] at hEq
    split_ifs at hEq
    all_goals try (have hc := ih _ _ _ _ _ _ _ hEq; exact hc)
    all_goals simp [VLineOut.stOf] at hEq
    all_goals subst hEq
    all_goals rfl

theorem readValueF_config (lines : List String) :
    ∀ (st : PState) (h : Bool) (s v : String) (st' : PState) (ls' : List String),
      readValueF st h s lines = .ok (v, st', ls') → st'.config = st.config := by
  induction lines with
  | nil =>
    intro st h s v st' ls' hEq
    simp only [readValueF] at hEq
    cases hrl : readValueLine st false "" false h s st.getCur with
    | err e => rw [hrl] at hEq; simp at hEq
    | ret v2 st2 =>
      rw [hrl] at hEq
      simp at hEq
      obtain ⟨-, h2, -⟩ := hEq
      subst h2
      exact readValueLine_config st.getCur st false "" false h s st2 (by rw [hrl]; rfl)
    | contEsc v2 st2 h2 s2 =>
      rw [hrl] at hEq
      simp at hEq
      obtain ⟨-, h3, -⟩ := hEq
      subst h3
      exact readValueLine_config st.getCur st false "" false h s st2 (by rw [hrl]; rfl)
  | cons l ls ih =>
    intro st h s v st' ls' hEq
    simp only [readValueF] at hEq
    cases hrl : readValueLine st false "" false h s st.getCur with
    | err e => rw [hrl] at hEq; simp at hEq
    | ret v2 st2 =>
      rw [hrl] at hEq
      simp at hEq
      obtain ⟨-, h2, -⟩ := hEq
      subst h2
      exact readValueLine_config st.getCur st false "" false h s st2 (by rw [hrl]; rfl)
    | contEsc v2 st2 h2 s2 =>
      rw [hrl] at hEq
      dsimp only at hEq
      cases hrec : readValueF (advanceLine st2 l) h2 s2 ls with
      | error e => rw [hrec] at hEq; simp at hEq
      | ok trip =>
        obtain ⟨next, st3, ls3⟩ := trip
        rw [hrec] at hEq
        simp at hEq
        obtain ⟨-, h4, -⟩ := hEq
        subst h4
        have hc3 : st3.config = (advanceLine st2 l).config :=
          ih (advanceLine st2 l) h2 s2 next st3 ls3 hrec
        have hc2 : st2.config = st.config :=
          readValueLine_config st.getCur st false "" false h s st2 (by rw [hrl]; rfl)
        rw [hc3]
        exact hc2

set_option maxHeartbeats 1000000 in
theorem readKeyValueLoop_WF (cs : List Char) :
    ∀ (st : PState) (lines : List String) (h dk : Bool) (key : String) (st' : PState)
      (ls' : List String),
      st.config.WF → readKeyValueLoop st lines h dk key cs = .ok (st', ls') →
        st'.config.WF := by
  induction cs with
  | nil =>
    intro st lines h dk key st' ls' hWF hEq
    simp only [readKeyValueLoop] at hEq
    split_ifs at hEq <;> simp at hEq <;> obtain ⟨h1, -⟩ := hEq <;> rw [← h1]
    · exact AddKeyValue_WF _ _ _ _ _ hWF
    · exact hWF
  | cons c rest ih =>
    intro st lines h dk key st' ls' hWF hEq
    rw [readKeyValueLoop] at hEq
    by_cases h1 : goIsSpace c = true
    · rw [if_pos h1] at hEq
      exact ih (bump st) lines _ _ _ st' ls' hWF hEq
    · rw [if_neg h1] at hEq
      by_cases h2 : c = '='
      · rw [if_pos h2] at hEq
        cases hrv : readValueF (bump st) false "" lines with
        | error e =>
          rw [hrv] at hEq
          simp at hEq
        | ok trip =>
          obtain ⟨value, st2, lines2⟩ := trip
          rw [hrv] at hEq
          dsimp only at hEq
          simp at hEq
          obtain ⟨h3, -⟩ := hEq
          rw [← h3]
          show (st2.config.AddKeyValue st2.sectionName st2.subSection key (some value)).WF
          rw [readValueF_config lines (bump st) false "" value st2 lines2 hrv]
          exact AddKeyValue_WF _ _ _ _ _ hWF
      · rw [if_neg h2] at hEq
        by_cases h3 : dk = true
        · rw [if_pos h3] at hEq
          simp at hEq
        · rw [if_neg h3] at hEq
          by_cases h4 : ¬ goIsLetter c = true ∧ ¬ h = true
          · rw [if_pos h4] at hEq
            simp at hEq
          · rw [if_neg h4] at hEq
            by_cases h5 : ¬ goIsLetter c = true ∧ c ≠ '-' ∧ ¬ goIsDigit c = true
            · rw [if_pos h5] at hEq
              simp at hEq
            · rw [if_neg h5] at hEq
              exact ih (bump st) lines _ _ _ st' ls' hWF hEq

set_option maxHeartbeats 1000000 in
theorem readSubsectionLoop_config (cs : List Char) :
    ∀ (st : PState) (lines : List String) (inSub inEsc : Bool) (st' : PState)
      (ls' : List String),
      readSubsectionLoop st lines inSub inEsc cs = .ok (st', ls') →
        st'.config = st.config := by
  induction cs with
  | nil =>
    intro st lines inSub inEsc st' ls' hEq
    simp [readSubsectionLoop] at hEq
  | cons c rest ih =>
    intro st lines inSub inEsc st' ls' hEq
    rw [readSubsectionLoop] at hEq
    split_ifs at hEq
    all_goals try (have hc := ih _ _ _ _ _ _ hEq; exact hc)
    all_goals simp at hEq
    all_goals obtain ⟨h1, -⟩ := hEq
    all_goals rw [← h1]
    all_goals rfl

set_option maxHeartbeats 1000000 in
theorem readSectionLoop_WF (cs : List Char) :
    ∀ (st : PState) (lines : List String) (inSec : Bool) (st' : PState) (ls' : List String),
      readSectionLoop st lines inSec cs = .ok (st', ls') → st.config.WF →
        st'.config.WF := by
  induction cs with
  | nil =>
    intro st lines inSec st' ls' hEq hWF
    simp [readSectionLoop] at hEq
  | cons c rest ih =>
    intro st lines inSec st' ls' hEq hWF
    rw [readSectionLoop] at hEq
    by_cases h1 : goIsSpace c = true
    · rw [if_pos h1] at hEq
      exact ih _ _ _ _ _ hEq hWF
    · rw [if_neg h1] at hEq
      by_cases h2 : c = ';' ∨ c = '#'
      · rw [if_pos h2] at hEq
        by_cases h3 : inSec = true
        · rw [if_pos h3] at hEq
          simp at hEq
        · rw [if_neg h3] at hEq
          simp at hEq
          obtain ⟨h4, -⟩ := hEq
          rw [← h4]
          exact hWF
      · rw [if_neg h2] at hEq
        by_cases h3 : c = '['
        · rw [if_pos h3] at hEq
          by_cases h4 : (bump st).sectionName ≠ "" ∨ inSec = true
          · rw [if_pos h4] at hEq
            simp at hEq
          · rw [if_neg h4] at hEq
            exact ih _ _ _ _ _ hEq hWF
        · rw [if_neg h3] at hEq
          by_cases h4 : c = ']'
          · rw [if_pos h4] at hEq
            by_cases h5 : ¬ inSec = true
            · rw [if_pos h5] at hEq
              simp at hEq
            · rw [if_neg h5] at hEq
              exact readKeyValueLoop_WF ((bump st).getCur) (bump st) lines false false ""
                st' ls' hWF hEq
          · rw [if_neg h4] at hEq
            by_cases h5 : c = '"'
            · rw [if_pos h5] at hEq
              by_cases h6 : (bump st).subSection = ""
              · rw [if_pos h6] at hEq
                by_cases h7 : (bump st).sectionName = ""
                · rw [if_pos h7] at hEq
                  simp at hEq
                · rw [if_neg h7] at hEq
                  have hc := readSubsectionLoop_config _ _ _ _ _ _ _ hEq
                  rw [hc]
                  exact hWF
              · rw [if_neg h6] at hEq
                simp at hEq
            · rw [if_neg h5] at hEq
              exact ih _ _ _ _ _ hEq hWF

set_option maxHeartbeats 1000000 in
theorem readKeyOrSectionLoop_WF (cs : List Char) :
    ∀ (st : PState) (lines : List String) (h iq ie : Bool) (out : String) (st' : PState)
      (ls' : List String),
      readKeyOrSectionLoop st lines h iq ie out cs = .ok (st', ls') → st.config.WF →
        st'.config.WF := by
  induction cs with
  | nil =>
    intro st lines h iq ie out st' ls' hEq hWF
    simp only [readKeyOrSectionLoop] at hEq
    simp at hEq
    obtain ⟨h1, -⟩ := hEq
    rw [← h1]
    exact hWF
  | cons c rest ih =>
    intro st lines h iq ie out st' ls' hEq hWF
    rw [readKeyOrSectionLoop] at hEq
    by_cases h1 : goIsSpace c = true
    · rw [if_pos h1] at hEq
      by_cases h2 : ¬ h = true
      · rw [if_pos h2] at hEq
        exact ih _ _ _ _ _ _ _ _ hEq hWF
      · rw [if_neg h2] at hEq
        by_cases h3 : ie = true
        · rw [if_pos h3] at hEq
          simp at hEq
        · rw [if_neg h3] at hEq
          by_cases h4 : iq = true
          · rw [if_pos h4] at hEq
            exact ih _ _ _ _ _ _ _ _ hEq hWF
          · rw [if_neg h4] at hEq
            exact ih _ _ _ _ _ _ _ _ hEq hWF
    · rw [if_neg h1] at hEq
      by_cases h2 : c = ';' ∨ c = '#'
      · rw [if_pos h2] at hEq
        simp at hEq
        obtain ⟨h3, -⟩ := hEq
        rw [← h3]
        exact hWF
      · rw [if_neg h2] at hEq
        by_cases h3 : c = '['
        · rw [if_pos h3] at hEq
          exact readSectionLoop_WF _ _ _ _ _ _ hEq hWF
        · rw [if_neg h3] at hEq
          exact readKeyValueLoop_WF _ _ _ _ _ _ st' ls' hWF hEq

theorem pReadFuel_WF (fuel : Nat) :
    ∀ (st : PState) (lines : List String) (cfg : Config),
      pReadFuel fuel st lines = .ok cfg → st.config.WF → cfg.WF := by
  induction fuel with
  | zero =>
    intro st lines cfg hEq hWF
    simp only [pReadFuel] at hEq
    simp at hEq
    rw [← hEq]
    exact hWF
  | succ n ih =>
    intro st lines cfg hEq hWF
    cases lines with
    | nil =>
      simp only [pReadFuel] at hEq
      simp at hEq
      rw [← hEq]
      exact hWF
    | cons l ls =>
      rw [pReadFuel] at hEq
      by_cases h1 : (advanceLine st l).curLine = ""
      · rw [if_pos h1] at hEq
        exact ih _ _ _ hEq hWF
      · rw [if_neg h1] at hEq
        cases hks : readKeyOrSection (advanceLine st l) ls with
        | error e =>
          rw [hks] at hEq
          simp at hEq
        | ok pair =>
          obtain ⟨st2, ls2⟩ := pair
          rw [hks] at hEq
          dsimp only at hEq
          have hWF2 : st2.config.WF :=
            readKeyOrSectionLoop_WF _ _ _ _ _ _ _ _ _ hks hWF
          exact ih _ _ _ hEq hWF2

/-- The parser only writes through `AddKeyValue`, so a parse from scratch
always yields a well-formed store. -/
theorem NewConfigFromString_WF (data : String) (cfg : Config)
    (h : NewConfigFromString data = .ok cfg) : cfg.WF := by
  unfold NewConfigFromString at h
  exact pReadFuel_WF _ _ _ _ h (by constructor <;> simp [NewConfig, initialPState, ConfigValueSet.WF])


/-- **C9.**  Every write into a value set — the parser's writes and
`Config.AddKeyValue` alike all go through `ConfigValueSet.addValue` —
preserves the invariant: normalized (lowercased) keys stay unique and each
entry is keyed by the lowercase of its display name (i), a write to an
existing normalized key only appends to that entry's ordered value
sequence, keeping the original case of the first write (ii), a write to a
fresh key creates the entry with the writer's case (iii), and entries for
other keys are untouched (iv); `AddKeyValue` preserves the invariant on
every value set of the store (v) and every parsed store satisfies it (vi).
Consequently a key assigned `a`, `b`, `c` yields `c` on last-value lookup
and `[a,b,c]` on full lookup, and a later write in different case keeps the
first spelling (vii). -/
theorem C9_value_set_invariants :
    (∀ (s : ConfigValueSet) (key : String) (v : Option String),
      s.WF → (s.addValue key v).WF) ∧
    (∀ (s : ConfigValueSet) (key : String) (v : Option String) (cv : ConfigValue),
      s.find key = some cv →
        (s.addValue key v).find key = some { cv with Value := cv.Value ++ [v] }) ∧
    (∀ (s : ConfigValueSet) (key : String) (v : Option String),
      s.find key = none →
        s.addValue key v =
          s ++ [{ Name := goToLower key, OrigCaseName := key, Value := [v] }]) ∧
    (∀ (s : ConfigValueSet) (key key2 : String) (v : Option String),
      ¬ (goToLower key2 = goToLower key) →
        (s.addValue key v).find key2 = s.find key2) ∧
    (∀ (c : Config) (sectionName subSection key : String) (v : Option String),
      c.WF → (c.AddKeyValue sectionName subSection key v).WF) ∧
    (∀ (data : String) (cfg : Config), NewConfigFromString data = .ok cfg → cfg.WF) ∧
    ((NewConfigFromString "key1 = a\nkey1 = b\nkey1 = c").toOption.map
        (fun c => (c.GetKeyValueAsString "key1", c.GetKeyValuesStrings "key1")) =
      some (("c", true), some ["a", "b", "c"]) ∧
     NewConfigFromString "Key1 = a\nKEY1 = b" =
      .ok ⟨[], [⟨"key1", "Key1", [some "a", some "b"]⟩]⟩) := by
  refine ⟨addValue_WF, ?_, ?_, ?_, AddKeyValue_WF, NewConfigFromString_WF,
    by decide, by decide⟩
  · intro s key v cv h
    exact find?_setUpdate_self (goToLower key) key v s cv h
  · intro s key v h
    exact setUpdate_not_found (goToLower key) key v s
      (by simpa using List.find?_eq_none.mp h)
  · intro s key key2 v h
    exact find?_setUpdate_other (goToLower key) key (goToLower key2) v s h

/-- **C9, witness.**  The invariant theorem applied at concrete inputs: a
second write in different case (`KEY1`) to the entry first written as
`Key1` keeps the invariant, appends to the value sequence and keeps the
first-spelling `Key1`; `AddKeyValue` into a fresh section/subsection keeps
the store invariant; the store parsed from `key1 = a` satisfies it. -/
theorem C9_value_set_invariants_witness :
    ConfigValueSet.WF
      (ConfigValueSet.addValue [⟨"key1", "Key1", [some "a"]⟩] "KEY1" (some "b")) ∧
    ConfigValueSet.find
      (ConfigValueSet.addValue [⟨"key1", "Key1", [some "a"]⟩] "KEY1" (some "b")) "KEY1" =
      some ⟨"key1", "Key1", [some "a", some "b"]⟩ ∧
    Config.WF (Config.AddKeyValue NewConfig "sec" "Sub" "Key" (some "x")) ∧
    Config.WF ⟨[], [⟨"key1", "key1", [some "a"]⟩]⟩ := by
  have h := C9_value_set_invariants
  refine ⟨h.1 _ "KEY1" (some "b") (by decide), ?_,
    h.2.2.2.2.1 NewConfig "sec" "Sub" "Key" (some "x") (by decide),
    h.2.2.2.2.2.1 "key1 = a" _ (by decide)⟩
  have h2 := h.2.1 [⟨"key1", "Key1", [some "a"]⟩] "KEY1" (some "b")
    ⟨"key1", "Key1", [some "a"]⟩ (by decide)
  simpa using h2

end Gitconfig
